import Mathlib

/-!
Verification of the `fillomino.permapfiller` module (class `PermapFiller`).

The module extends an incomplete tabular performance map (a pandas DataFrame
with a multi-level row index of physical variables and columns of output
quantities) by applying single-variable correction curves, normalizing by
rated values, and exporting a fixed-format text file.

Shallow embedding conventions used throughout this file:
* numbers are modelled by `ℚ` (the Python code works on floats; no claim in
  scope depends on floating-point rounding),
* a DataFrame is a list of rows, each row a pair of a key tuple (one entry
  per index level, outermost first) and a value tuple (one entry per column,
  in column order); cells are addressed positionally through the column list,
* correction curves are Lean functions `ℚ → ℚ`,
* Python exceptions are modelled by an error type `PyErr`; fallible
  operations return `Except PyErr _`,
* Python dicts are modelled by association lists in insertion order; dict
  assignment replaces an existing key in place or appends a new key at the
  end, exactly like CPython preserves insertion order,
* where CPython iterates a `set` (whose order is unspecified), the model
  fixes a canonical order; each such place is marked with a comment,
* the `pmf` accessor state (`_mode`, `_normalized`, `_entries`,
  `_corrections`, `_manval_factors`) together with the DataFrame is modelled
  by the structure `Table`; `copyattr` propagates exactly these attributes,
  so value-returning operations are modelled as functions `Table → _`.
  The main model treats the corrections dict as a value; the reference
  (aliasing) semantics of the Python dicts, which one claim is about, is
  modelled separately at the end with an explicit store.
-/

namespace Permap

/-- A correction curve: a single-argument numeric function. -/
abbrev Curve : Type := ℚ → ℚ

/-- One value of the two-level corrections dict `self._corrections`.
For ordinary input quantities the value is itself a dict from output
quantity to curve; for `SHR` the default corrections store a bare callable
(the code calls `self.get_correction('SHR')` directly as a function in
`fillmap`, and `_add_corrections` explicitly skips `SHR`). -/
inductive CorrVal : Type
  | curves (cs : List (String × Curve))
  | fn (f : Curve)

/-- The two-level corrections mapping: input quantity to `CorrVal`. -/
abbrev Corrections : Type := List (String × CorrVal)

/-- Python exceptions raised by the module.  Constructors carry the data
interpolated into the exception message at the corresponding raise site
(quote characters of the Python messages are elided). -/
inductive PyErr : Type
  | runtimeError (msg : String)
  | valueError (msg : String)
  /-- A `ValueError` whose message names two lists of column names, as in
  `normalize` (the full column lists of both sides) and `_check_columns`
  (the unmatched columns of both sides).  The Python message interpolates
  `list(...)` of a set, whose order is unspecified; the model carries the
  lists in a canonical order. -/
  | valueErrorCols (msg : String) (cols1 cols2 : List String)
  | keyError (key : String)
  | attributeError (attr : String)
  | typeError (msg : String)
  deriving DecidableEq

/-- True for the two `ValueError` constructors. -/
def PyErr.isValueError : PyErr → Bool
  | .valueError _ => true
  | .valueErrorCols _ _ _ => true
  | _ => false

/-- True when an `Except` result is a raised `ValueError`. -/
def isValueErrorResult {α : Type} : Except PyErr α → Bool
  | .error e => e.isValueError
  | .ok _ => false

/-- The DataFrame abstraction: named row-index levels (outermost first), an
optional column-axis name (`columns.name`), named columns, and rows given as
(key tuple, value tuple) pairs. -/
structure DF : Type where
  names : List String
  colsName : Option String
  cols : List String
  rows : List (List ℚ × List ℚ)
  deriving DecidableEq

/-- A DataFrame together with the `pmf` accessor attributes
(`_mode`, `_normalized`, `_entries`, `_corrections`, `_manval_factors`). -/
structure Table : Type where
  df : DF
  mode : Option String
  normalized : Bool
  entries : List (String × List ℚ)
  corrections : Option Corrections
  manvalFactors : Option (List (String × ℚ))

/-- Dict lookup on an association list (Python `d[k]` read, first match). -/
def lookupA {α : Type} (k : String) : List (String × α) → Option α
  | [] => none
  | p :: ps => if p.1 = k then some p.2 else lookupA k ps

/-- Dict assignment `d[k] = v`: replace in place if the key exists,
otherwise append (CPython keeps insertion order). -/
def setA {α : Type} (l : List (String × α)) (k : String) (v : α) :
    List (String × α) :=
  if (l.map Prod.fst).contains k then
    l.map (fun p => if p.1 = k then (k, v) else p)
  else l ++ [(k, v)]

/-- Set equality of two column/key collections (Python `set(a) == set(b)`). -/
def sameSet (a b : List String) : Bool :=
  a.all (fun x => b.contains x) && b.all (fun x => a.contains x)

/-- Set difference `set a - set b`, in the order of `a`. -/
def diffSet (a b : List String) : List String :=
  a.filter (fun x => !(b.contains x))

/-- Symmetric difference `set a ^ set b`; the Python set is modelled in the
canonical order: elements of `a` first, then elements of `b`. -/
def symmDiff (a b : List String) : List String :=
  diffSet a b ++ diffSet b a

/-- Strict subset test `set m < set t` (Python `<` on sets). -/
def properSubset (m t : List String) : Bool :=
  m.all (fun x => t.contains x) && !(sameSet m t)

/-- The three interderivable output quantities.  The source writes this set
as `{'capacity', 'power', 'COP'}`; the model fixes this canonical order. -/
def quantityTriple : List String := ["capacity", "power", "COP"]

/-- Positional cell access: the value of column `c` in a value tuple
aligned with `cols`. -/
def cellVal (cols : List String) (vals : List ℚ) (c : String) : ℚ :=
  vals.getD (cols.indexOf c) 0

/-- Column update `df[q] *= x` (in-place multiplication of one column).
When `q` is not a column the update is the identity; every use in the
module is guarded by `_check_columns`, which guarantees `q` is a column. -/
def mulCol (df : DF) (q : String) (x : ℚ) : DF :=
  { df with rows := df.rows.map (fun r =>
      (r.1, r.2.set (df.cols.indexOf q) (r.2.getD (df.cols.indexOf q) 0 * x))) }

/-- Column update `df[q] /= x` (in-place division of one column). -/
def divCol (df : DF) (q : String) (x : ℚ) : DF :=
  { df with rows := df.rows.map (fun r =>
      (r.1, r.2.set (df.cols.indexOf q) (r.2.getD (df.cols.indexOf q) 0 / x))) }

/-- Append a new column computed row-wise from the key tuple and the value
tuple (`df[name] = expression`, for a `name` not yet present). -/
def appendCol (df : DF) (name : String) (f : List ℚ → List ℚ → ℚ) : DF :=
  { df with cols := df.cols ++ [name],
            rows := df.rows.map (fun r => (r.1, r.2 ++ [f r.1 r.2])) }

/-- Drop a column (`df.drop(c, axis='columns')`). -/
def dropCol (df : DF) (c : String) : DF :=
  { df with cols := df.cols.eraseIdx (df.cols.indexOf c),
            rows := df.rows.map (fun r =>
              (r.1, r.2.eraseIdx (df.cols.indexOf c))) }

/-- Drop one row-index level (`df.droplevel(name)`).  The rows are kept
(pandas keeps duplicate keys); only the key component disappears. -/
def dropLevel (df : DF) (name : String) : DF :=
  { df with names := df.names.eraseIdx (df.names.indexOf name),
            rows := df.rows.map (fun r =>
              (r.1.eraseIdx (df.names.indexOf name), r.2)) }

/-- The values of one index level (`df.index.get_level_values(name)`). -/
def levelValues (df : DF) (name : String) : List ℚ :=
  df.rows.map (fun r => r.1.getD (df.names.indexOf name) 0)

/-- Helper for `uniqueList`: keep the first occurrence of every value not
yet seen. -/
def uniqueFrom (seen : List ℚ) : List ℚ → List ℚ
  | [] => []
  | x :: xs =>
    match seen.contains x with
    | true => uniqueFrom seen xs
    | false => x :: uniqueFrom (x :: seen) xs

/-- First-occurrence deduplication (`Index.unique` / `drop_duplicates`). -/
def uniqueList (l : List ℚ) : List ℚ :=
  uniqueFrom [] l

/-- Reorder the row-index levels (`df.reorder_levels(order)`); `order` must
be a permutation of the current level names. -/
def reorderLevels (df : DF) (order : List String) : DF :=
  { df with names := order,
            rows := df.rows.map (fun r =>
              (order.map (fun n => r.1.getD (df.names.indexOf n) 0), r.2)) }

/-- Reorder/select the columns (`df.reindex(order, axis='columns')`).  Every
use in the module selects only columns that are present. -/
def reindexCols (df : DF) (order : List String) : DF :=
  { df with cols := order,
            rows := df.rows.map (fun r =>
              (r.1, order.map (fun c => r.2.getD (df.cols.indexOf c) 0))) }

/-- Substring test on character lists (Python `needle in hay`). -/
def charsContain (needle : List Char) : List Char → Bool
  | [] => needle.isEmpty
  | c :: cs => needle.isPrefixOf (c :: cs) || charsContain needle cs

/-- Case-insensitive normalization of a string (`s.lower()`), as characters. -/
def lowerChars (s : String) : List Char :=
  s.toList.map Char.toLower

/-- Boolean lexicographic comparison of key tuples. -/
def lexLeB : List ℚ → List ℚ → Bool
  | [], _ => true
  | _ :: _, [] => false
  | a :: as, b :: bs => if a < b then true else if b < a then false else lexLeB as bs

/-- Sort the rows by key (`df.sort_index()`). -/
def sortRows (df : DF) : DF :=
  { df with rows := List.insertionSort (fun r s => lexLeB r.1 s.1 = true) df.rows }

/-! ## Embedding of the `PermapFiller` methods -/

/-- `_check_mode(before)`: raise `RuntimeError` when the mode is unset. -/
def checkMode (t : Table) (before : String) : Except PyErr Unit :=
  match t.mode with
  | none => .error (.runtimeError
      ("attribute mode must be set before " ++ before ++ "."))
  | some _ => .ok ()

/-- `_check_columns(keys)`: raise `ValueError` unless the column index and
the correction keys agree as sets.  The error carries the unmatched columns
of both sides (the Python message interpolates the same data, with a
formatting quirk for the single-element case that no claim depends on). -/
def checkColumns (cols keys : List String) : Except PyErr Unit :=
  if sameSet cols keys then .ok ()
  else .error (.valueErrorCols
      "DataFrame column index must match corrections keys."
      (diffSet cols keys) (diffSet keys cols))

/-- `_check_corrections(quantity)`: mode must be set; the corrections entry
for `quantity` must exist, be a dict, and hold 2 or 3 curves.  On success
the inner dict is returned for further use. -/
def checkCorrections (t : Table) (quantity : String) :
    Except PyErr (List (String × Curve)) :=
  match checkMode t "checking for corrections" with
  | .error e => .error e
  | .ok _ =>
    match t.corrections with
    | none => .error (.typeError "NoneType object is not subscriptable")
    | some cs =>
      match lookupA quantity cs with
      | none => .error (.keyError quantity)
      | some (.fn _) => .error (.typeError "object of type function has no len")
      | some (.curves inner) =>
        if inner.length < 2 then
          .error (.valueError "there should be at least two corrections.")
        else if inner.length > 3 then
          .error (.valueError "there are too many (or redundant) corrections.")
        else .ok inner

/-- `set_correction(input_quantity, output_quantity, new_correction)`, value
semantics: the two-level dict is updated functionally.  (The reference
semantics of the Python dicts is modelled separately below; no other claim
depends on it.)  Both the `inplace=True` and the `inplace=False` path leave
this same updated attribute bundle on the table they act on. -/
def setCorrectionVal (t : Table) (iq oq : String) (f : Curve) :
    Except PyErr Table :=
  match checkMode t "setting new correction" with
  | .error e => .error e
  | .ok _ =>
    match t.corrections with
    | none => .error (.typeError "NoneType object is not subscriptable")
    | some cs =>
      match lookupA iq cs with
      | none => .error (.keyError iq)
      | some (.fn _) =>
        .error (.typeError "function object does not support item assignment")
      | some (.curves inner) =>
        .ok { t with corrections := some (setA cs iq (.curves (setA inner oq f))) }

/-- `_add_correction(quantity)`: derive the missing one of
{power, capacity, COP} from the two present curves.  The Python code picks
the missing key with `set.pop()`, whose order is unspecified; whenever more
than one key is missing the model pops the first in the canonical
`quantityTriple` order (every such case raises either way, since the two
curves needed for the derivation cannot both be present). -/
def addCorrection (t : Table) (quantity : String) : Except PyErr Table :=
  match checkCorrections t quantity with
  | .error e => .error e
  | .ok inner =>
    let keys := inner.map Prod.fst
    if sameSet keys quantityTriple then .ok t
    else
      match (quantityTriple.filter (fun k => !(keys.contains k))).head? with
      | none => .error (.keyError "pop from an empty set")
      | some missing =>
        if missing = "power" then
          match lookupA "capacity" inner with
          | none => .error (.keyError "capacity")
          | some cap =>
            match lookupA "COP" inner with
            | none => .error (.keyError "COP")
            | some cop =>
              setCorrectionVal t quantity "power" (fun x => cap x / cop x)
        else if missing = "capacity" then
          match lookupA "power" inner with
          | none => .error (.keyError "power")
          | some power =>
            match lookupA "COP" inner with
            | none => .error (.keyError "COP")
            | some cop =>
              setCorrectionVal t quantity "capacity" (fun x => power x * cop x)
        else if missing = "COP" then
          match lookupA "power" inner with
          | none => .error (.keyError "power")
          | some power =>
            match lookupA "capacity" inner with
            | none => .error (.keyError "capacity")
            | some cap =>
              setCorrectionVal t quantity "COP" (fun x => cap x / power x)
        else .error (.valueError
            "correction key should be capacity, power or COP.")

/-- The loop body of `_add_corrections`: complete each listed input
quantity in turn, threading the table. -/
def addCorrectionFold (t : Table) : List String → Except PyErr Table
  | [] => .ok t
  | q :: qs =>
    match addCorrection t q with
    | .error e => .error e
    | .ok t2 => addCorrectionFold t2 qs

/-- `_add_corrections()`: complete every input quantity except `SHR`.
CPython iterates `set(self.corrections) - {'SHR'}` in unspecified order;
the model iterates in dict insertion order (completion of distinct input
quantities is order-independent). -/
def addCorrectionsAll (t : Table) : Except PyErr Table :=
  match t.corrections with
  | none => .error (.typeError "NoneType object is not iterable")
  | some cs =>
    addCorrectionFold t ((cs.map Prod.fst).filter (fun q => !(q == "SHR")))

/-- The default manufacturer-value factors installed by the mode setter:
`{'freq': 1, 'AFR': 1}`, plus `'Twbr': 1` in cooling mode. -/
def defaultManvals (mode : String) : List (String × ℚ) :=
  if mode = "cooling" then [("freq", 1), ("AFR", 1), ("Twbr", 1)]
  else [("freq", 1), ("AFR", 1)]

/-- The tail of the mode setter, after the mode string is resolved: relabel
the column axis, install defaults when corrections or manufacturer-value
factors are unset. -/
def setModeTail (defaults : String → Corrections) (t : Table) (m : String) :
    Except PyErr Table :=
  let t1 : Table := { t with mode := some m,
                             df := { t.df with colsName := some m } }
  let afterCorr : Except PyErr Table :=
    match t1.corrections with
    | none => addCorrectionsAll { t1 with corrections := some (defaults m) }
    | some _ => .ok t1
  match afterCorr with
  | .error e => .error e
  | .ok t2 =>
    match t2.manvalFactors with
    | none => .ok { t2 with manvalFactors := some (defaultManvals m) }
    | some _ => .ok t2

/-- The mode setter (`mode.setter`).  `defaults` stands for
`build_default_corrections` from the `defaults` module, an external
collaborator that supplies the per-mode default correction curves (curve
fit parameters out of scope); it is a parameter of the model.  When
corrections are already set they are left untouched and a non-fatal
`UserWarning` (not modelled) is surfaced. -/
def setMode (defaults : String → Corrections) (t : Table)
    (operatingMode : String) : Except PyErr Table :=
  let low := lowerChars operatingMode
  if charsContain "cool".toList low then
    setModeTail defaults t "cooling"
  else if charsContain "heat".toList low then
    setModeTail defaults t "heating"
  else .error (.valueError "value argument must be either heating or cooling.")

/-- classmethod `_add_missing_df_column(df)`: add the missing one of
{capacity, power, COP} as a new column computed from the two present ones.
`set.pop()` order is modelled canonically as in `addCorrection`; attribute
reads `_df.capacity` etc. raise `AttributeError` when the column is absent,
in Python evaluation order. -/
def addMissingDFCol (df : DF) : Except PyErr DF :=
  if sameSet df.cols quantityTriple then .ok df
  else
    match (quantityTriple.filter (fun c => !(df.cols.contains c))).head? with
    | none => .error (.keyError "pop from an empty set")
    | some missing =>
      if missing = "power" then
        if df.cols.contains "capacity" then
          if df.cols.contains "COP" then
            .ok (appendCol df "power" (fun _ v =>
              cellVal df.cols v "capacity" / cellVal df.cols v "COP"))
          else .error (.attributeError "COP")
        else .error (.attributeError "capacity")
      else if missing = "capacity" then
        if df.cols.contains "power" then
          if df.cols.contains "COP" then
            .ok (appendCol df "capacity" (fun _ v =>
              cellVal df.cols v "power" * cellVal df.cols v "COP"))
          else .error (.attributeError "COP")
        else .error (.attributeError "power")
      else if missing = "COP" then
        if df.cols.contains "capacity" then
          if df.cols.contains "power" then
            .ok (appendCol df "COP" (fun _ v =>
              cellVal df.cols v "capacity" / cellVal df.cols v "power"))
          else .error (.attributeError "power")
        else .error (.attributeError "capacity")
      else .error (.valueError "column names should be capacity, power or COP.")

/-- The rated value of column `c` of the one-row rated-values frame
(`value[0]` for the Series of column `c`). -/
def firstVal (va : DF) (c : String) : ℚ :=
  (va.rows.headD ([], [])).2.getD (va.cols.indexOf c) 0

/-- The division loop of `normalize`:
`for quantity, value in values.iteritems(): pm[quantity] /= value[0]`.
Iterates the columns of the rated-values frame in order; `pm[quantity]` on
an absent column raises `KeyError`. -/
def divideCols (df : DF) (va : DF) : List String → Except PyErr DF
  | [] => .ok df
  | c :: cs =>
    if df.cols.contains c then divideCols (divCol df c (firstVal va c)) va cs
    else .error (.keyError c)

/-- `normalize(values)`.  Already-normalized data is rejected; the mode must
be set; `values=None` returns an unchanged copy; otherwise the column sets
are reconciled (`mismatch < {'capacity', 'power', 'COP'}` is a strict subset
test): a smaller rated-values side is completed with
`_add_missing_df_column`, while a smaller map side hits
`pm.pmf._add_missing_df_column(pm._obj)` whose argument `pm._obj` is
evaluated on a plain DataFrame and raises `AttributeError('_obj')`;
then every column of the rated values is divided into the map and the
normalized flag is set. -/
def normalizeT (t : Table) (values : Option DF) : Except PyErr Table :=
  if t.normalized then .error (.runtimeError "values are already normalized.")
  else
    match checkMode t "normalizing" with
    | .error e => .error e
    | .ok _ =>
      match values with
      | none => .ok t
      | some va =>
        let pmcols := t.df.cols
        let vacols := va.cols
        let mismatch := symmDiff pmcols vacols
        if properSubset mismatch quantityTriple then
          match (if pmcols.length > vacols.length then addMissingDFCol va
                 else .ok va) with
          | .error e => .error e
          | .ok va2 =>
            match (if pmcols.length < vacols.length then
                   (.error (.attributeError "_obj") : Except PyErr DF)
                   else .ok t.df) with
            | .error e => .error e
            | .ok df2 =>
              match divideCols df2 va2 va2.cols with
              | .error e => .error e
              | .ok df3 => .ok { t with df := df3, normalized := true }
        else .error (.valueErrorCols
            "DataFrame column index must match values column index."
            pmcols vacols)

/-- `get_correction(input_quantity)` with no output quantity: the whole
corrections entry for one input quantity. -/
def getCorrection (t : Table) (iq : String) : Except PyErr CorrVal :=
  match checkMode t "getting correction" with
  | .error e => .error e
  | .ok _ =>
    match t.corrections with
    | none => .error (.typeError "NoneType object is not subscriptable")
    | some cs =>
      match lookupA iq cs with
      | none => .error (.keyError iq)
      | some v => .ok v

/-- The scaling applied by `correct` once its column check has passed:
each output column `q` is multiplied by `correction_q(entry) /
correction_q(manval)`, iterating the corrections dict in order. -/
def correctedDF (df : DF) (corrs : List (String × Curve))
    (entry manval : ℚ) : DF :=
  corrs.foldl (fun d p => mulCol d p.1 (p.2 entry / p.2 manval)) df

/-- `correct(corrections, entry, manval)`: check the columns against the
correction keys, then scale every output column. -/
def correctDF (df : DF) (corrs : List (String × Curve))
    (entry manval : ℚ) : Except PyErr DF :=
  match checkColumns df.cols (corrs.map Prod.fst) with
  | .error e => .error e
  | .ok _ => .ok (correctedDF df corrs entry manval)

/-- Sequential evaluation of the list comprehension
`[self.correct(corrections, entry, manval) for entry in entries]`
(the first raised exception propagates). -/
def correctAll (df : DF) (corrs : List (String × Curve)) (manval : ℚ) :
    List ℚ → Except PyErr (List DF)
  | [] => .ok []
  | e :: es =>
    match correctDF df corrs e manval with
    | .error err => .error err
    | .ok d =>
      match correctAll df corrs manval es with
      | .error err => .error err
      | .ok ds => .ok (d :: ds)

/-- `extend(corrections, entries, name)` on the DataFrame:
`pd.concat(extrusions, keys=entries, names=[name])` prepends a new
outermost index level whose value on each block is the corresponding
entry.  `manval_factors[name]` raises `TypeError` when the factors are
unset and `KeyError` when the name is missing; `pd.concat` raises
`ValueError` when the extrusion list is empty (no entries). -/
def extendDF (df : DF) (corrs : List (String × Curve)) (entries : List ℚ)
    (name : String) (mvf : Option (List (String × ℚ))) : Except PyErr DF :=
  match checkColumns df.cols (corrs.map Prod.fst) with
  | .error e => .error e
  | .ok _ =>
    match mvf with
    | none => .error (.typeError "NoneType object is not subscriptable")
    | some mv =>
      match lookupA name mv with
      | none => .error (.keyError name)
      | some manval =>
        match correctAll df corrs manval entries with
        | .error e => .error e
        | .ok ds =>
          if entries.isEmpty then
            .error (.valueError "No objects to concatenate")
          else
            .ok { names := name :: df.names, colsName := df.colsName,
                  cols := df.cols,
                  rows := (entries.zip ds).flatMap (fun p =>
                    p.2.rows.map (fun r => (p.1 :: r.1, r.2))) }

/-- `extend` on the table: the resulting frame carries the attribute bundle
of the original (`new.pmf.copyattr(self)`). -/
def extendT (t : Table) (corrs : List (String × Curve)) (entries : List ℚ)
    (name : String) : Except PyErr Table :=
  match extendDF t.df corrs entries name t.manvalFactors with
  | .error e => .error e
  | .ok d => .ok { t with df := d }

/-- The sensible-capacity column computation of the cooling branch:
`permap['sensible_capacity'] = permap.capacity * SHR(Tdb - Twb)` where
`Tdb`/`Twb` are the `Tdbr`/`Twbr` index-level values of each row. -/
def shrCol (tn : DF) (shr : Curve) : DF :=
  appendCol tn "sensible_capacity" (fun k v =>
    cellVal tn.cols v "capacity" *
      shr (k.getD (tn.names.indexOf "Tdbr") 0 -
           k.getD (tn.names.indexOf "Twbr") 0))

/-- The latent-capacity column computation of the cooling branch:
`permap['latent_capacity'] = permap.capacity - permap.sensible_capacity`. -/
def latCol (p1 : DF) : DF :=
  appendCol p1 "latent_capacity" (fun _ v =>
    cellVal p1.cols v "capacity" - cellVal p1.cols v "sensible_capacity")

/-- The cooling tail of `fillmap`, starting from the AFR-extended frame:
drop the `Twbr` level, re-extend a fresh `Twbr` axis over the unique Twbr
values of the AFR-extended frame, normalize, split the capacity into
sensible and latent parts with the `SHR` curve, drop `capacity`, reorder
and sort the index, reorder the columns. -/
def fillmapCoolingTail (t : Table) (norm : Option DF) (withAFR : DF) :
    Except PyErr DF :=
  let withoutTwbr := dropLevel withAFR "Twbr"
  let twbrVals := uniqueList (levelValues withAFR "Twbr")
  match getCorrection t "Twbr" with
  | .error e => .error e
  | .ok (.fn _) => .error (.attributeError "keys")
  | .ok (.curves twbrCorr) =>
    match extendDF withoutTwbr twbrCorr twbrVals "Twbr" t.manvalFactors with
    | .error e => .error e
    | .ok withTwbr =>
      match normalizeT { t with df := withTwbr } norm with
      | .error e => .error e
      | .ok tn =>
        match getCorrection t "SHR" with
        | .error e => .error e
        | .ok (.curves _) => .error (.typeError "dict object is not callable")
        | .ok (.fn shr) =>
          let p3 := dropCol (latCol (shrCol tn.df shr)) "capacity"
          let p4 := sortRows (reorderLevels p3
            ["Tdbr", "Twbr", "Tdbo", "AFR", "freq"])
          .ok (reindexCols p4 ["power", "sensible_capacity", "latent_capacity"])

/-- `fillmap(norm)`: complete the missing output column, extend along
`freq` then `AFR`, then finish according to the operating mode.  The result
is the filled DataFrame (which carries the attribute bundle of the original
via `copyattr`). -/
def fillmapT (t : Table) (norm : Option DF) : Except PyErr DF :=
  match checkMode t "filling the performance map" with
  | .error e => .error e
  | .ok _ =>
    if norm.isSome && t.normalized then
      .error (.runtimeError "values are already normalized")
    else
      match getCorrection t "freq" with
      | .error e => .error e
      | .ok (.fn _) => .error (.attributeError "keys")
      | .ok (.curves freqCorr) =>
        match addMissingDFCol t.df with
        | .error e => .error e
        | .ok df1 =>
          match lookupA "freq" t.entries with
          | none => .error (.keyError "freq")
          | some freqEntries =>
            match extendDF df1 freqCorr freqEntries "freq" t.manvalFactors with
            | .error e => .error e
            | .ok withFreq =>
              match getCorrection t "AFR" with
              | .error e => .error e
              | .ok (.fn _) => .error (.attributeError "keys")
              | .ok (.curves afrCorr) =>
                match lookupA "AFR" t.entries with
                | none => .error (.keyError "AFR")
                | some afrEntries =>
                  match extendDF withFreq afrCorr afrEntries "AFR"
                      t.manvalFactors with
                  | .error e => .error e
                  | .ok withAFR =>
                    if t.mode = some "heating" then
                      let permap := sortRows (reorderLevels withAFR
                        ["Tdbr", "Tdbo", "AFR", "freq"])
                      match normalizeT { t with df := permap } norm with
                      | .error e => .error e
                      | .ok t2 => .ok (reindexCols t2.df ["power", "capacity"])
                    else if t.mode = some "cooling" then
                      fillmapCoolingTail t norm withAFR
                    else
                      .error (.valueError
                        "mode must either be heating or cooling")

/-! ## Embedding of `print_permap` (fixed-format export)

The method serializes the table to a file and then prepends, in order, the
performance-map banner, one tab-joined unique-values block per index level
(innermost level prepended first), one count block per index level
(innermost first), and the fixed warning banner.  Since each prepend pushes
prior content down, the final file reads top-down: warning banner, count
blocks for level 0, 1, ..., values blocks for level 0, 1, ..., the
performance-map banner, then the CSV body.  The model produces the final
file content as a list of lines. -/

/-- `round(10)` applied to a cell.  (numpy rounds halves to even; `round`
on `ℚ` rounds halves up.  No claim depends on ties in the 10th decimal,
and float formatting is outside the embedding.) -/
def round10 (q : ℚ) : ℚ :=
  round (q * 10 ^ 10) / 10 ^ 10

/-- `s.replace('(', '').replace(')', '')`: remove all parentheses. -/
def stripParens (s : String) : String :=
  String.mk (s.toList.filter (fun c => c != Char.ofNat 40 && c != Char.ofNat 41))

/-- The values of index level `i` (`index.get_level_values(i)`). -/
def levelValuesIdx (df : DF) (i : Nat) : List ℚ :=
  df.rows.map (fun r => r.1.getD i 0)

/-- The name of index level `i`. -/
def fetchName (df : DF) (i : Nat) : String :=
  df.names.getD i ""

/-- The two lines `!# <name> values` / tab-joined unique values, for index
level `i`, with parentheses stripped as in the source. -/
def valuesLines (df : DF) (i : Nat) : List String :=
  [stripParens ("!# " ++ fetchName df i ++ " values"),
   stripParens ("   " ++ String.intercalate "\t"
     ((uniqueList (levelValuesIdx df i)).map (fun q => toString q)))]

/-- The two lines `!# Number of <name> data points` / count, for index
level `i`. -/
def countLines (df : DF) (i : Nat) : List String :=
  [stripParens ("!# Number of " ++ fetchName df i ++ " data points"),
   stripParens ("   " ++ toString (uniqueList (levelValuesIdx df i)).length)]

/-- The fixed warning banner prepended last (hence first in the file). -/
def warningLines : List String :=
  ["!# This is a data file for Type 3254. Do not change the format.",
   "!# In PARTICULAR, LINES STARTING WITH !# MUST BE LEFT IN THE FILE AT THEIR LOCATION.",
   "!# Comments within \"normal lines\" (not starting with !#) are optional but the data must be there.",
   "!#",
   "!# Independent variables",
   "!#"]

/-- The CSV body: `pd.concat([df], keys=[''], names=['!#'])` adds an
outermost index level named `!#` whose single value is the empty string;
the frame is sorted, values are rounded to 10 decimals, and written
tab-separated (header line, then one line per row with an empty leading
field for the `!#` level). -/
def csvLines (df : DF) : List String :=
  (String.intercalate "\t" (("!#" :: df.names) ++ df.cols)) ::
  (sortRows df).rows.map (fun r =>
    String.intercalate "\t"
      ("" :: (r.1.map (fun q => toString q) ++
              r.2.map (fun q => toString (round10 q)))))

/-- `print_permap(filename, majororder)`: the content of the written file,
as lines.  `majororder` is validated case-insensitively against
{row, col}; for column-major order the index levels other than the added
`!#` level are reversed before sorting and serialization.  The count and
values blocks always describe the original index levels. -/
def printPermapLines (df : DF) (majororder : String) :
    Except PyErr (List String) :=
  let order := String.mk (lowerChars majororder)
  if !(order = "row" || order = "col") then
    .error (.typeError "order must be either row or col.")
  else
    .ok (warningLines ++
         ((List.range df.names.length).flatMap (fun i => countLines df i)) ++
         ((List.range df.names.length).flatMap (fun i => valuesLines df i)) ++
         ["!#", "!# Performance map", "!#"] ++
         csvLines (if order = "col" then reorderLevels df df.names.reverse
                   else df))

/-! ## Reference semantics of the corrections dict

`PermapFiller.copyattr` copies the selected attributes with
`setattr(new.pmf, attribute, getattr(other, attribute))`: for
`_corrections` this copies the *reference* to the Python dict, not its
contents.  `set_correction(..., inplace=False)` therefore first builds a
copy `new = self.copy()` sharing the same corrections dict, and then the
item assignment `updated_corrections[input_quantity][output_quantity] =
new_correction` mutates that shared dict.  To settle the claim about this
frame effect, the dict identity is made explicit here: a store maps dict
addresses to dict values, and a table holds an address. -/

/-- A store of corrections dicts, addressed by position. -/
structure CorrStore : Type where
  cells : List Corrections

/-- A table whose `_corrections` attribute is `None` or a dict address. -/
structure RefTable : Type where
  df : DF
  mode : Option String
  corrRef : Option Nat

/-- Read a dict from the store. -/
def storeGet (s : CorrStore) (r : Nat) : Corrections :=
  s.cells.getD r []

/-- Overwrite a dict in the store (in-place mutation of the dict object). -/
def storeSet (s : CorrStore) (r : Nat) (v : Corrections) : CorrStore :=
  ⟨s.cells.set r v⟩

/-- `set_correction(input_quantity, output_quantity, new_correction,
inplace)` under reference semantics.  With `inplace=False` the method
returns `self.copy()`, whose `copyattr` copies the corrections dict
reference; the subsequent item assignment mutates the dict shared between
the copy and the caller.  Returns the new store and the returned frame
(`None` when `inplace=True`). -/
def setCorrectionRef (s : CorrStore) (t : RefTable) (iq oq : String)
    (f : Curve) (inplace : Bool) : Except PyErr (CorrStore × Option RefTable) :=
  match t.mode with
  | none => .error (.runtimeError
      "attribute mode must be set before setting new correction.")
  | some _ =>
    let new : Option RefTable :=
      if inplace then none
      else some { df := t.df, mode := t.mode, corrRef := t.corrRef }
    match t.corrRef with
    | none => .error (.typeError "NoneType object is not subscriptable")
    | some r =>
      match lookupA iq (storeGet s r) with
      | none => .error (.keyError iq)
      | some (.fn _) =>
        .error (.typeError "function object does not support item assignment")
      | some (.curves inner) =>
        .ok (storeSet s r (setA (storeGet s r) iq (.curves (setA inner oq f))),
             new)

/-- The correction curve of `(iq, oq)` seen by table `t` in store `s`,
evaluated at `x` (`self.corrections[iq][oq](x)`). -/
def refCorrectionAt (s : CorrStore) (t : RefTable) (iq oq : String) (x : ℚ) :
    Option ℚ :=
  match t.corrRef with
  | none => none
  | some r =>
    match lookupA iq (storeGet s r) with
    | some (.curves inner) => (lookupA oq inner).map (fun g => g x)
    | _ => none

/-! ## General lemmas about the embedding primitives -/

theorem set_getD_self : (l : List ℚ) → (i : Nat) → l.set i (l.getD i 0) = l
  | [], _ => rfl
  | _ :: _, 0 => rfl
  | a :: t, n + 1 => congrArg (List.cons a) (set_getD_self t n)

theorem list_map_self {α : Type} (l : List α) (f : α → α)
    (h : ∀ a ∈ l, f a = a) : l.map f = l := by
  induction l with
  | nil => rfl
  | cons a t ih =>
    rw [List.map_cons, h a (by simp), ih (fun x hx => h x (by simp [hx]))]

theorem mulCol_one (df : DF) (q : String) : mulCol df q 1 = df := by
  cases df with
  | mk names colsName cols rows =>
    unfold mulCol
    simp only [mul_one]
    congr 1
    exact list_map_self _ _ (fun r _ => by rw [set_getD_self])

theorem correctedDF_self (df : DF) (corrs : List (String × Curve)) (manval : ℚ)
    (hnz : ∀ p ∈ corrs, p.2 manval ≠ 0) :
    correctedDF df corrs manval manval = df := by
  induction corrs generalizing df with
  | nil => rfl
  | cons p ps ih =>
    have h1 : p.2 manval / p.2 manval = 1 := div_self (hnz p (by simp))
    unfold correctedDF
    simp only [List.foldl_cons, h1, mulCol_one]
    exact ih df (fun r hr => hnz r (by simp [hr]))

theorem normalizeT_ok_flag (t t2 : Table) (rv : DF)
    (h : normalizeT t (some rv) = .ok t2) : t2.normalized = true := by
  simp only [normalizeT] at h
  repeat' split at h
  all_goals first
    | (simp only [Except.ok.injEq] at h; subst h; rfl)
    | exact absurd h (by simp)

/-! ## Claim C1 -/

/-- A concrete store holding one corrections dict, at address 0, with a
single curve: the constant 0 curve for `('freq', 'power')`. -/
def exStoreC1 : CorrStore :=
  ⟨[[("freq", CorrVal.curves [("power", fun _ => 0)])]]⟩

/-- A table with mode set whose `_corrections` attribute references the
dict at address 0. -/
def exTableC1 : RefTable :=
  { df := ⟨[], none, [], []⟩, mode := some "heating", corrRef := some 0 }

/-- C1: the claim states that after `set_correction(..., inplace=False)`
the caller still holds the old curve.  The code violates this: `copyattr`
copies the corrections dict by reference, so the item assignment mutates
the dict shared with the caller.  Concretely, the caller's
`corrections['freq']['power']` evaluates to 0 before the call and to 1 (the
new curve) in the post-state, while the claim says it would still be 0. -/
theorem C1_set_correction_mutates_caller :
    refCorrectionAt exStoreC1 exTableC1 "freq" "power" 0 = some 0 ∧
    (setCorrectionRef exStoreC1 exTableC1 "freq" "power" (fun _ => 1)
        false).map
      (fun p => refCorrectionAt p.1 exTableC1 "freq" "power" 0) =
      .ok (some 1) := by
  exact ⟨rfl, rfl⟩

/-! ## Claim C5 -/

/-- C5: `correct(corrections, manval, manval=manval)` is the identity on
the table whenever the column check passes and every correction curve is
non-zero at the anchor `manval` (the scaling factor of every column is
`correction(manval) / correction(manval) = 1`). -/
theorem C5_correct_at_manval_identity (df : DF)
    (corrs : List (String × Curve)) (manval : ℚ)
    (hchk : sameSet df.cols (corrs.map Prod.fst) = true)
    (hnz : ∀ p ∈ corrs, p.2 manval ≠ 0) :
    correctDF df corrs manval manval = .ok df := by
  unfold correctDF checkColumns
  rw [hchk]
  simp [correctedDF_self df corrs manval hnz]

/-- Witness for C5 at a concrete one-row table and a one-curve correction
set whose curve has value 1 at the anchor 0. -/
theorem C5_witness :
    correctDF ⟨["i"], none, ["capacity"], [([0], [5])]⟩
      [("capacity", fun x => x + 1)] 0 0 =
      .ok ⟨["i"], none, ["capacity"], [([0], [5])]⟩ :=
  C5_correct_at_manval_identity _ _ _ (by decide)
    (fun p hp => by
      rcases List.mem_singleton.mp hp with rfl
      norm_num)

/-! ## Claim C7 -/

/-- C7: after a successful `normalize` with rated values, a second
`normalize` call with any rated-values argument raises `RuntimeError`
(the already-normalized guard fires before anything else, so the second
call touches nothing). -/
theorem C7_normalize_twice (t t2 : Table) (rv : DF) (values2 : Option DF)
    (h : normalizeT t (some rv) = .ok t2) :
    normalizeT t2 values2 =
      .error (.runtimeError "values are already normalized.") := by
  have hn := normalizeT_ok_flag t t2 rv h
  unfold normalizeT
  rw [hn]
  rfl

/-- A concrete not-yet-normalized table for the C7 and C10 witnesses. -/
def exTableC7 : Table :=
  { df := ⟨["i"], none, ["capacity", "power"], []⟩,
    mode := some "cooling", normalized := false, entries := [],
    corrections := none, manvalFactors := none }

/-- Concrete one-row rated values for the C7 witness. -/
def exRatedC7 : DF := ⟨[], none, ["capacity", "power"], [([], [2, 4])]⟩

/-- The result of normalizing `exTableC7` by `exRatedC7`. -/
def exNormC7 : Table :=
  { df := ⟨["i"], none, ["capacity", "power"], []⟩,
    mode := some "cooling", normalized := true, entries := [],
    corrections := none, manvalFactors := none }

/-- Witness for C7: normalizing the concrete table succeeds, and
normalizing the result again raises the `RuntimeError`. -/
theorem C7_witness :
    normalizeT exNormC7 (some exRatedC7) =
      .error (.runtimeError "values are already normalized.") :=
  C7_normalize_twice exTableC7 exNormC7 exRatedC7 (some exRatedC7) rfl

/-! ## Claim C6 -/

theorem setModeTail_ok (defaults : String → Corrections) (t : Table)
    (m : String) (cs : Corrections) (hc : t.corrections = some cs) :
    ∃ t2, setModeTail defaults t m = .ok t2 ∧ t2.mode = some m ∧
      t2.df.colsName = some m := by
  simp only [setModeTail, hc]
  cases hmv : t.manvalFactors with
  | none => exact ⟨_, rfl, rfl, rfl⟩
  | some mv => exact ⟨_, rfl, rfl, rfl⟩

/-- C6: the mode setter normalizes free-form mode text by case-insensitive
substring match and relabels the column-axis name to the mode: a string
containing `cool` yields cooling; a string containing `heat` (and not
`cool` — the code tests `cool` first) yields heating; a string containing
neither raises `ValueError`.  Stated for tables whose corrections are
already set, so that the result does not depend on the external default
corrections collaborator (absent from the sources); the mode and axis
relabelling are unaffected by that branch. -/
theorem C6_mode_setter (defaults : String → Corrections) (t : Table)
    (s : String) (cs : Corrections) (hc : t.corrections = some cs) :
    (charsContain "cool".toList (lowerChars s) = true →
      ∃ t2, setMode defaults t s = .ok t2 ∧ t2.mode = some "cooling" ∧
        t2.df.colsName = some "cooling") ∧
    (charsContain "cool".toList (lowerChars s) = false →
      charsContain "heat".toList (lowerChars s) = true →
      ∃ t2, setMode defaults t s = .ok t2 ∧ t2.mode = some "heating" ∧
        t2.df.colsName = some "heating") ∧
    (charsContain "cool".toList (lowerChars s) = false →
      charsContain "heat".toList (lowerChars s) = false →
      setMode defaults t s = .error
        (.valueError "value argument must be either heating or cooling.")) := by
  refine ⟨fun hcool => ?_, fun hnc hheat => ?_, fun hnc hnh => ?_⟩
  · simp only [setMode, hcool, if_true]
    exact setModeTail_ok defaults t "cooling" cs hc
  · simp only [setMode, hnc, hheat, if_true, Bool.false_eq_true, if_false]
    exact setModeTail_ok defaults t "heating" cs hc
  · have hnc2 : charsContain (['c', 'o', 'o', 'l'] : List Char)
        (lowerChars s) = false := hnc
    have hnh2 : charsContain (['h', 'e', 'a', 't'] : List Char)
        (lowerChars s) = false := hnh
    unfold setMode
    rw [if_neg (by simp [hnc2]), if_neg (by simp [hnh2])]

/-- An unset table with corrections already present, for the C6 witness. -/
def exTableC6 : Table :=
  { df := ⟨[], none, [], []⟩, mode := none, normalized := false,
    entries := [], corrections := some [], manvalFactors := none }

/-- Witness for C6 at the concrete mode string `heat pump - heating`,
which contains `heat` but not `cool`. -/
theorem C6_witness :
    ∃ t2, setMode (fun _ => []) exTableC6 "heat pump - heating" = .ok t2 ∧
      t2.mode = some "heating" ∧ t2.df.colsName = some "heating" :=
  (C6_mode_setter (fun _ => []) exTableC6 "heat pump - heating" [] rfl).2.1
    (by decide) (by decide)

/-! ## Claim C4 -/

theorem mulCol_names (df : DF) (q : String) (x : ℚ) :
    (mulCol df q x).names = df.names := rfl

theorem mulCol_colsName (df : DF) (q : String) (x : ℚ) :
    (mulCol df q x).colsName = df.colsName := rfl

theorem mulCol_cols (df : DF) (q : String) (x : ℚ) :
    (mulCol df q x).cols = df.cols := rfl

theorem checkColumns_ok (cols keys : List String)
    (h : sameSet cols keys = true) : checkColumns cols keys = .ok () := by
  unfold checkColumns
  rw [h]
  rfl

theorem correctedDF_shape (df : DF) (corrs : List (String × Curve))
    (entry manval : ℚ) :
    (correctedDF df corrs entry manval).names = df.names ∧
    (correctedDF df corrs entry manval).colsName = df.colsName ∧
    (correctedDF df corrs entry manval).cols = df.cols ∧
    ∃ f : (List ℚ × List ℚ) → (List ℚ × List ℚ),
      (correctedDF df corrs entry manval).rows = df.rows.map f ∧
      ∀ r, (f r).1 = r.1 ∧ (f r).2.length = r.2.length := by
  induction corrs generalizing df with
  | nil =>
    exact ⟨rfl, rfl, rfl, fun r => r, (List.map_id' df.rows).symm,
      fun r => ⟨rfl, rfl⟩⟩
  | cons p ps ih =>
    have step : correctedDF df (p :: ps) entry manval =
        correctedDF (mulCol df p.1 (p.2 entry / p.2 manval)) ps entry manval :=
      rfl
    obtain ⟨h1, h2, h3, f, hf, hfp⟩ :=
      ih (mulCol df p.1 (p.2 entry / p.2 manval))
    refine ⟨by rw [step, h1, mulCol_names], by rw [step, h2, mulCol_colsName],
      by rw [step, h3, mulCol_cols], ?_⟩
    refine ⟨fun r => f (r.1, r.2.set (df.cols.indexOf p.1)
        (r.2.getD (df.cols.indexOf p.1) 0 * (p.2 entry / p.2 manval))), ?_, ?_⟩
    · rw [step, hf]
      simp [mulCol, List.map_map]
    · intro r
      refine ⟨(hfp _).1, ?_⟩
      rw [(hfp _).2]
      simp

theorem correctDF_ok (df : DF) (corrs : List (String × Curve))
    (entry manval : ℚ) (hchk : sameSet df.cols (corrs.map Prod.fst) = true) :
    correctDF df corrs entry manval = .ok (correctedDF df corrs entry manval) := by
  unfold correctDF checkColumns
  rw [hchk]
  rfl

theorem correctAll_ok (df : DF) (corrs : List (String × Curve)) (manval : ℚ)
    (entries : List ℚ)
    (hchk : sameSet df.cols (corrs.map Prod.fst) = true) :
    correctAll df corrs manval entries =
      .ok (entries.map (fun e => correctedDF df corrs e manval)) := by
  induction entries with
  | nil => rfl
  | cons e es ih =>
    unfold correctAll
    rw [correctDF_ok df corrs e manval hchk, ih]
    rfl

theorem zip_map_flatMap {α β γ : Type} (l : List α) (f : α → β)
    (g : α × β → List γ) :
    (l.zip (l.map f)).flatMap g = l.flatMap (fun a => g (a, f a)) := by
  induction l with
  | nil => rfl
  | cons a t ih => simp [List.flatMap_cons, ih]

theorem extendDF_ok (df : DF) (corrs : List (String × Curve))
    (entries : List ℚ) (name : String) (mv : List (String × ℚ)) (manval : ℚ)
    (hchk : sameSet df.cols (corrs.map Prod.fst) = true)
    (hlk : lookupA name mv = some manval) (hne : entries ≠ []) :
    extendDF df corrs entries name (some mv) =
      .ok { names := name :: df.names, colsName := df.colsName,
            cols := df.cols,
            rows := entries.flatMap (fun e =>
              (correctedDF df corrs e manval).rows.map
                (fun r => (e :: r.1, r.2))) } := by
  cases entries with
  | nil => exact absurd rfl hne
  | cons e0 es =>
    have h1 : extendDF df corrs (e0 :: es) name (some mv) =
        .ok { names := name :: df.names, colsName := df.colsName,
              cols := df.cols,
              rows := ((e0 :: es).zip ((e0 :: es).map
                  (fun e => correctedDF df corrs e manval))).flatMap
                (fun p => p.2.rows.map (fun r => (p.1 :: r.1, r.2))) } := by
      unfold extendDF
      rw [checkColumns_ok _ _ hchk]
      simp only [hlk, correctAll_ok df corrs manval (e0 :: es) hchk]
      rfl
    rw [h1, zip_map_flatMap]

theorem flatMap_const_length {α β : Type} (l : List α) (f : α → List β)
    (m : Nat) (h : ∀ a ∈ l, (f a).length = m) :
    (l.flatMap f).length = l.length * m := by
  induction l with
  | nil => simp
  | cons a t ih =>
    simp only [List.flatMap_cons, List.length_append, h a (by simp),
      List.length_cons, ih (fun x hx => h x (by simp [hx]))]
    ring

theorem uniqueFrom_replicate_seen (seen : List ℚ) (e : ℚ) (k : Nat)
    (rest : List ℚ) (hs : seen.contains e = true) :
    uniqueFrom seen (List.replicate k e ++ rest) = uniqueFrom seen rest := by
  induction k with
  | zero => rfl
  | succ m ih =>
    rw [List.replicate_succ, List.cons_append]
    show uniqueFrom seen (e :: (List.replicate m e ++ rest)) =
      uniqueFrom seen rest
    simp only [uniqueFrom, hs]
    exact ih

theorem uniqueFrom_flatMap_replicate (entries : List ℚ) (seen : List ℚ)
    (n : ℚ → Nat) (hn : ∀ e ∈ entries, 0 < n e) (hnd : entries.Nodup)
    (hs : ∀ e ∈ entries, seen.contains e = false) :
    uniqueFrom seen (entries.flatMap (fun e => List.replicate (n e) e)) =
      entries := by
  induction entries generalizing seen with
  | nil => rfl
  | cons e es ih =>
    have hpos : 0 < n e := hn e (by simp)
    have hrep : List.replicate (n e) e = e :: List.replicate (n e - 1) e := by
      cases hk : n e with
      | zero => omega
      | succ k => simp [List.replicate_succ]
    have hcond : seen.contains e = false := hs e (by simp)
    rw [List.flatMap_cons, hrep, List.cons_append]
    show uniqueFrom seen (e :: (List.replicate (n e - 1) e ++
      es.flatMap (fun x => List.replicate (n x) x))) = e :: es
    simp only [uniqueFrom, hcond]
    congr 1
    rw [uniqueFrom_replicate_seen (e :: seen) e (n e - 1) _ (by simp)]
    refine ih (e :: seen) (fun x hx => hn x (by simp [hx]))
      (List.nodup_cons.mp hnd).2 (fun x hx => ?_)
    have hxe : x ≠ e := by
      rintro rfl
      exact (List.nodup_cons.mp hnd).1 hx
    have hxs := hs x (by simp [hx])
    simp [hxe]
    simpa using hxs

theorem heads_flatMap_blocks (entries : List ℚ)
    (blk : ℚ → List (List ℚ × List ℚ)) :
    (entries.flatMap (fun e => (blk e).map (fun r => (e :: r.1, r.2)))).map
        (fun r => r.1.headD 0) =
      entries.flatMap (fun e => List.replicate (blk e).length e) := by
  induction entries with
  | nil => rfl
  | cons a es ih =>
    rw [List.flatMap_cons, List.flatMap_cons, List.map_append, ih]
    congr 1
    rw [List.map_map]
    exact List.map_const' (blk a) a

theorem filter_head_flatMap_blocks (entries : List ℚ)
    (blk : ℚ → List (List ℚ × List ℚ)) (e : ℚ) (he : e ∈ entries)
    (hnd : entries.Nodup) :
    ((entries.flatMap (fun x => (blk x).map (fun r => (x :: r.1, r.2)))).filter
        (fun r => decide (r.1.headD 0 = e))) =
      (blk e).map (fun r => (e :: r.1, r.2)) := by
  induction entries with
  | nil => cases he
  | cons a es ih =>
    rw [List.flatMap_cons, List.filter_append]
    by_cases hae : a = e
    · subst hae
    -- the head block is kept whole; later blocks have different heads
      have h1 : ((blk a).map (fun r => (a :: r.1, r.2))).filter
          (fun r => decide (r.1.headD 0 = a)) =
          (blk a).map (fun r => (a :: r.1, r.2)) := by
        refine List.filter_eq_self.mpr (fun r hr => ?_)
        obtain ⟨r0, _, rfl⟩ := List.mem_map.mp hr
        simp
      have h2 : ((es.flatMap (fun x =>
          (blk x).map (fun r => (x :: r.1, r.2)))).filter
            (fun r => decide (r.1.headD 0 = a))) = [] := by
        refine List.filter_eq_nil_iff.mpr (fun r hr => ?_)
        obtain ⟨x, hx, hrx⟩ := List.mem_flatMap.mp hr
        obtain ⟨r0, _, rfl⟩ := List.mem_map.mp hrx
        have hxa : x ≠ a := by
          rintro rfl
          exact (List.nodup_cons.mp hnd).1 hx
        simp [hxa]
      rw [h1, h2, List.append_nil]
    · have hee : e ∈ es := by
        rcases List.mem_cons.mp he with h | h
        · exact absurd h.symm hae
        · exact h
      have h1 : ((blk a).map (fun r => (a :: r.1, r.2))).filter
          (fun r => decide (r.1.headD 0 = e)) = [] := by
        refine List.filter_eq_nil_iff.mpr (fun r hr => ?_)
        obtain ⟨r0, _, rfl⟩ := List.mem_map.mp hr
        simp [hae]
      rw [h1, List.nil_append]
      exact ih hee (List.nodup_cons.mp hnd).2

/-- C4: `extend(corrections, entries, name)` on a table whose columns match
the correction keys, with a configured manufacturer-value factor for
`name`, returns a table with `len(entries) * original_row_count` rows and a
new outermost index level named `name` whose unique values equal `entries`,
where the block of rows for each entry is `correct(corrections, entry,
manval=manval_factors[name])` with the entry prepended to each key. -/
theorem C4_extend (t : Table) (corrs : List (String × Curve))
    (entries : List ℚ) (name : String) (mv : List (String × ℚ)) (manval : ℚ)
    (hchk : sameSet t.df.cols (corrs.map Prod.fst) = true)
    (hmv : t.manvalFactors = some mv)
    (hlk : lookupA name mv = some manval)
    (hne : entries ≠ []) (hnd : entries.Nodup)
    (hrows : t.df.rows ≠ []) :
    ∃ out, extendT t corrs entries name = .ok out ∧
      out.df.rows.length = entries.length * t.df.rows.length ∧
      out.df.names = name :: t.df.names ∧
      uniqueList (out.df.rows.map (fun r => r.1.headD 0)) = entries ∧
      ∀ e ∈ entries,
        out.df.rows.filter (fun r => decide (r.1.headD 0 = e)) =
          (correctedDF t.df corrs e manval).rows.map
            (fun r => (e :: r.1, r.2)) := by
  have hext := extendDF_ok t.df corrs entries name mv manval hchk hlk hne
  have hblocklen : ∀ e ∈ entries,
      ((correctedDF t.df corrs e manval).rows.map
        (fun r => ((e :: r.1 : List ℚ), r.2))).length = t.df.rows.length := by
    intro e _
    rw [List.length_map]
    obtain ⟨_, _, _, f, hf, _⟩ := correctedDF_shape t.df corrs e manval
    rw [hf, List.length_map]
  refine ⟨_, by unfold extendT; rw [hmv, hext], ?_, rfl, ?_, ?_⟩
  · exact flatMap_const_length entries _ t.df.rows.length hblocklen
  · rw [heads_flatMap_blocks entries
      (fun e => (correctedDF t.df corrs e manval).rows)]
    refine uniqueFrom_flatMap_replicate entries [] _ (fun e he => ?_) hnd
      (fun e _ => rfl)
    have hlen : (correctedDF t.df corrs e manval).rows.length =
        t.df.rows.length := by
      have := hblocklen e he
      rwa [List.length_map] at this
    rw [hlen]
    exact List.length_pos.mpr hrows
  · intro e he
    exact filter_head_flatMap_blocks entries
      (fun x => (correctedDF t.df corrs x manval).rows) e he hnd

/-- A concrete one-row table with a configured `freq` manufacturer-value
factor, for the C4 witness. -/
def exTableC4 : Table :=
  { df := ⟨["i"], none, ["capacity"], [([5], [7])]⟩,
    mode := some "cooling", normalized := false, entries := [],
    corrections := none, manvalFactors := some [("freq", 1)] }

/-- Witness for C4 at the entries `[2, 3]` along a new `freq` level. -/
theorem C4_witness :
    ∃ out, extendT exTableC4 [("capacity", fun _ => (1 : ℚ))] [2, 3] "freq" =
        .ok out ∧
      out.df.rows.length = [(2 : ℚ), 3].length * exTableC4.df.rows.length ∧
      out.df.names = "freq" :: exTableC4.df.names ∧
      uniqueList (out.df.rows.map (fun r => r.1.headD 0)) = [2, 3] ∧
      ∀ e ∈ [(2 : ℚ), 3],
        out.df.rows.filter (fun r => decide (r.1.headD 0 = e)) =
          (correctedDF exTableC4.df [("capacity", fun _ => (1 : ℚ))] e 1).rows.map
            (fun r => (e :: r.1, r.2)) :=
  C4_extend exTableC4 [("capacity", fun _ => (1 : ℚ))] [2, 3] "freq"
    [("freq", 1)] 1 (by decide) rfl rfl (by decide) (by decide) (by decide)

/-! ## Claim C8 -/

theorem lookupA_some_mem_keys {α : Type} {k : String} {l : List (String × α)}
    {v : α} (h : lookupA k l = some v) : k ∈ l.map Prod.fst := by
  induction l with
  | nil => cases h
  | cons p ps ih =>
    by_cases hp : p.1 = k
    · simp [hp]
    · simp only [lookupA, hp, if_false] at h
      simp [ih h]

theorem lookupA_none_not_mem {α : Type} {k : String} {l : List (String × α)}
    (h : lookupA k l = none) : k ∉ l.map Prod.fst := by
  induction l with
  | nil => simp
  | cons p ps ih =>
    by_cases hp : p.1 = k
    · simp [lookupA, hp] at h
    · simp only [lookupA, hp, if_false] at h
      simp only [List.map_cons, List.mem_cons, not_or]
      exact ⟨fun he => hp he.symm, ih h⟩

theorem lookupA_mem {α : Type} {k : String} {l : List (String × α)} {v : α}
    (h : lookupA k l = some v) : (k, v) ∈ l := by
  induction l with
  | nil => cases h
  | cons p ps ih =>
    by_cases hp : p.1 = k
    · subst hp
      rw [lookupA, if_pos rfl] at h
      injection h with hv
      subst hv
      simp
    · simp only [lookupA, hp, if_false] at h
      exact List.mem_cons_of_mem p (ih h)

theorem mem_keys_lookupA {α : Type} {k : String} {l : List (String × α)}
    (h : k ∈ l.map Prod.fst) : ∃ v, lookupA k l = some v := by
  induction l with
  | nil => cases h
  | cons p ps ih =>
    by_cases hp : p.1 = k
    · exact ⟨p.2, by simp [lookupA, hp]⟩
    · rcases List.mem_map.mp h with ⟨r, hr, hrk⟩
      rcases List.mem_cons.mp hr with rfl | hr2
      · exact absurd hrk hp
      · obtain ⟨v, hv⟩ := ih (List.mem_map.mpr ⟨r, hr2, hrk⟩)
        exact ⟨v, by simp [lookupA, hp, hv]⟩

theorem setA_append {α : Type} (l : List (String × α)) (k : String) (v : α)
    (h : (l.map Prod.fst).contains k = false) : setA l k v = l ++ [(k, v)] := by
  unfold setA
  rw [h]
  rfl

theorem checkCorrections_ok (t : Table) (md : String) (cs : Corrections)
    (q : String) (inner : List (String × Curve)) (hm : t.mode = some md)
    (hc : t.corrections = some cs) (hq : lookupA q cs = some (.curves inner))
    (h2 : 2 ≤ inner.length) (h3 : inner.length ≤ 3) :
    checkCorrections t q = .ok inner := by
  simp only [checkCorrections, checkMode, hm, hc, hq]
  rw [if_neg (by omega), if_neg (by omega)]

theorem addCorrection_complete_noop (t : Table) (md : String)
    (cs : Corrections) (q : String) (inner : List (String × Curve))
    (hm : t.mode = some md) (hc : t.corrections = some cs)
    (hq : lookupA q cs = some (.curves inner)) (hlen : inner.length = 3)
    (hsame : sameSet (inner.map Prod.fst) quantityTriple = true) :
    addCorrection t q = .ok t := by
  simp only [addCorrection,
    checkCorrections_ok t md cs q inner hm hc hq (by omega) (by omega)]
  rw [hsame]
  rfl

theorem addCorrectionFold_noop (t : Table) (qs : List String)
    (h : ∀ q ∈ qs, addCorrection t q = .ok t) :
    addCorrectionFold t qs = .ok t := by
  induction qs with
  | nil => rfl
  | cons q rest ih =>
    unfold addCorrectionFold
    rw [h q (by simp)]
    exact ih (fun x hx => h x (by simp [hx]))

/-- C8: the per-input-quantity completion `_add_correction` rejects
correction sets with fewer than 2 or more than 3 curves with `ValueError`;
with the full triple present it is a no-op; with exactly one of
{power, capacity, COP} missing it derives the missing curve by the matching
algebraic identity (`power = capacity/COP`, `capacity = power*COP`,
`COP = capacity/power`) and appends it; and `_add_corrections` skips the
input quantity `SHR` entirely, so SHR corrections are never auto-derived
(stated when every non-SHR quantity already has the complete triple, which
makes the completion pass a no-op that never touches `SHR`). -/
theorem C8_add_correction (t : Table) (md : String) (cs : Corrections)
    (q : String) (inner : List (String × Curve)) (hm : t.mode = some md)
    (hc : t.corrections = some cs)
    (hq : lookupA q cs = some (.curves inner)) :
    (inner.length < 2 → addCorrection t q =
      .error (.valueError "there should be at least two corrections.")) ∧
    (inner.length > 3 → addCorrection t q =
      .error (.valueError "there are too many (or redundant) corrections.")) ∧
    (inner.length = 3 → sameSet (inner.map Prod.fst) quantityTriple = true →
      addCorrection t q = .ok t) ∧
    (∀ f g, inner.length = 2 → lookupA "capacity" inner = some f →
      lookupA "COP" inner = some g → lookupA "power" inner = none →
      addCorrection t q = .ok { t with corrections := some (setA cs q
        (.curves (inner ++ [("power", fun x => f x / g x)]))) }) ∧
    (∀ f g, inner.length = 2 → lookupA "power" inner = some f →
      lookupA "COP" inner = some g → lookupA "capacity" inner = none →
      addCorrection t q = .ok { t with corrections := some (setA cs q
        (.curves (inner ++ [("capacity", fun x => f x * g x)]))) }) ∧
    (∀ f g, inner.length = 2 → lookupA "power" inner = some f →
      lookupA "capacity" inner = some g → lookupA "COP" inner = none →
      addCorrection t q = .ok { t with corrections := some (setA cs q
        (.curves (inner ++ [("COP", fun x => g x / f x)]))) }) ∧
    ((∀ p ∈ cs, p.1 ≠ "SHR" → ∃ inn, p.2 = CorrVal.curves inn ∧
        inn.length = 3 ∧ sameSet (inn.map Prod.fst) quantityTriple = true) →
      addCorrectionsAll t = .ok t) := by
  refine ⟨fun hlt => ?_, fun hgt => ?_,
    fun hlen hsame => addCorrection_complete_noop t md cs q inner
      hm hc hq hlen hsame,
    fun f g hlen hcap hcop hpow => ?_, fun f g hlen hpow hcop hcap => ?_,
    fun f g hlen hpow hcap hcop => ?_, fun hall => ?_⟩
  · simp only [addCorrection, checkCorrections, checkMode, hm, hc, hq]
    rw [if_pos hlt]
  · simp only [addCorrection, checkCorrections, checkMode, hm, hc, hq]
    rw [if_neg (by omega), if_pos hgt]
  · have hcapC : (inner.map Prod.fst).contains "capacity" = true := by
      simpa using lookupA_some_mem_keys hcap
    have hcopC : (inner.map Prod.fst).contains "COP" = true := by
      simpa using lookupA_some_mem_keys hcop
    have hpowC : (inner.map Prod.fst).contains "power" = false := by
      simpa using lookupA_none_not_mem hpow
    have hsame : sameSet (inner.map Prod.fst) quantityTriple = false := by
      unfold sameSet quantityTriple
      rw [List.all_cons, List.all_cons, List.all_cons, List.all_nil,
        hcapC, hpowC, hcopC]
      simp
    have hfilter : quantityTriple.filter
        (fun k => !((inner.map Prod.fst).contains k)) = ["power"] := by
      unfold quantityTriple
      rw [List.filter_cons, if_neg (by rw [hcapC]; decide)]
      rw [List.filter_cons, if_pos (by rw [hpowC]; decide)]
      rw [List.filter_cons, if_neg (by rw [hcopC]; decide)]
      rfl
    simp only [addCorrection,
      checkCorrections_ok t md cs q inner hm hc hq (by omega) (by omega),
      hsame, hfilter, hcap, hcop, hpow]
    simp only [setCorrectionVal, checkMode, hm, hc, hq,
      setA_append inner "power" _ hpowC]
    simp
  · have hpowC : (inner.map Prod.fst).contains "power" = true := by
      simpa using lookupA_some_mem_keys hpow
    have hcopC : (inner.map Prod.fst).contains "COP" = true := by
      simpa using lookupA_some_mem_keys hcop
    have hcapC : (inner.map Prod.fst).contains "capacity" = false := by
      simpa using lookupA_none_not_mem hcap
    have hsame : sameSet (inner.map Prod.fst) quantityTriple = false := by
      unfold sameSet quantityTriple
      rw [List.all_cons, List.all_cons, List.all_cons, List.all_nil,
        hcapC, hpowC, hcopC]
      simp
    have hfilter : quantityTriple.filter
        (fun k => !((inner.map Prod.fst).contains k)) = ["capacity"] := by
      unfold quantityTriple
      rw [List.filter_cons, if_pos (by rw [hcapC]; decide)]
      rw [List.filter_cons, if_neg (by rw [hpowC]; decide)]
      rw [List.filter_cons, if_neg (by rw [hcopC]; decide)]
      rfl
    simp only [addCorrection,
      checkCorrections_ok t md cs q inner hm hc hq (by omega) (by omega),
      hsame, hfilter, hcap, hcop, hpow]
    simp only [setCorrectionVal, checkMode, hm, hc, hq,
      setA_append inner "capacity" _ hcapC]
    simp
  · have hpowC : (inner.map Prod.fst).contains "power" = true := by
      simpa using lookupA_some_mem_keys hpow
    have hcapC : (inner.map Prod.fst).contains "capacity" = true := by
      simpa using lookupA_some_mem_keys hcap
    have hcopC : (inner.map Prod.fst).contains "COP" = false := by
      simpa using lookupA_none_not_mem hcop
    have hsame : sameSet (inner.map Prod.fst) quantityTriple = false := by
      unfold sameSet quantityTriple
      rw [List.all_cons, List.all_cons, List.all_cons, List.all_nil,
        hcapC, hpowC, hcopC]
      simp
    have hfilter : quantityTriple.filter
        (fun k => !((inner.map Prod.fst).contains k)) = ["COP"] := by
      unfold quantityTriple
      rw [List.filter_cons, if_neg (by rw [hcapC]; decide)]
      rw [List.filter_cons, if_neg (by rw [hpowC]; decide)]
      rw [List.filter_cons, if_pos (by rw [hcopC]; decide)]
      rfl
    simp only [addCorrection,
      checkCorrections_ok t md cs q inner hm hc hq (by omega) (by omega),
      hsame, hfilter, hcap, hcop, hpow]
    simp only [setCorrectionVal, checkMode, hm, hc, hq,
      setA_append inner "COP" _ hcopC]
    simp
  · unfold addCorrectionsAll
    rw [hc]
    refine addCorrectionFold_noop t _ (fun x hx => ?_)
    have hxk : x ∈ cs.map Prod.fst := (List.mem_filter.mp hx).1
    have hxs : x ≠ "SHR" := by
      have := (List.mem_filter.mp hx).2
      simpa using this
    obtain ⟨v, hv⟩ := mem_keys_lookupA hxk
    obtain ⟨inn, hinn, hlen3, hsame3⟩ := hall (x, v) (lookupA_mem hv) hxs
    exact addCorrection_complete_noop t md cs x inn hm hc
      (by rw [hv]; exact congrArg some hinn) hlen3 hsame3

/-- A two-curve correction set (capacity and COP present, power missing)
for the C8 witness. -/
def exInnerC8 : List (String × Curve) :=
  [("capacity", fun x => x), ("COP", fun _ => 2)]

/-- The corrections dict of the C8 witness table. -/
def exCorrsC8 : Corrections := [("freq", CorrVal.curves exInnerC8)]

/-- A table with mode set carrying `exCorrsC8`. -/
def exTableC8 : Table :=
  { df := ⟨[], none, [], []⟩, mode := some "heating", normalized := false,
    entries := [], corrections := some exCorrsC8, manvalFactors := none }

/-- Witness for C8: on the concrete two-curve set the missing `power`
curve is derived as `capacity(x) / COP(x) = x / 2` and appended. -/
theorem C8_witness :
    addCorrection exTableC8 "freq" =
      .ok { exTableC8 with
            corrections := some (setA exCorrsC8 "freq" (CorrVal.curves
              (exInnerC8 ++ [("power", fun x => x / 2)]))) } :=
  (C8_add_correction exTableC8 "heating" exCorrsC8 "freq" exInnerC8 rfl rfl
    rfl).2.2.2.1 (fun x => x) (fun _ => 2) rfl rfl rfl rfl

/-! ## Claim C3 -/

theorem getD_set_eq (l : List ℚ) (i : Nat) (x : ℚ) (h : i < l.length) :
    (l.set i x).getD i 0 = x := by
  rw [List.getD_eq_getElem _ _ (by simpa using h)]
  simp [List.getElem_set, h]

theorem getD_set_ne (l : List ℚ) (i j : Nat) (x : ℚ) (h : i ≠ j) :
    (l.set i x).getD j 0 = l.getD j 0 := by
  simp [List.getD, List.getElem?_set_ne h]

theorem getD_append_left (l l2 : List ℚ) (i : Nat) (h : i < l.length) :
    (l ++ l2).getD i 0 = l.getD i 0 :=
  List.getD_append _ _ _ _ h

theorem getD_append_len (l : List ℚ) (v : ℚ) :
    (l ++ [v]).getD l.length 0 = v := by
  rw [List.getD_eq_getElem]
  · simp
  · simp

theorem getD_mem_str (l : List String) (i : Nat) (h : i < l.length) :
    l.getD i "" ∈ l := by
  rw [List.getD_eq_getElem _ _ h]
  exact List.getElem_mem h

theorem nodup_indexOf_getD (l : List String) (hn : l.Nodup) (j : Nat)
    (h : j < l.length) : l.indexOf (l.getD j "") = j := by
  rw [List.getD_eq_getElem _ _ h]
  have hmem : l[j] ∈ l := List.getElem_mem h
  have hlt : l.indexOf l[j] < l.length := List.indexOf_lt_length.mpr hmem
  exact (List.Nodup.getElem_inj_iff hn).mp (List.getElem_indexOf hlt)

/-- The per-row effect of the `normalize` division loop: divide the value
at the position of each rated-values column by that column's rated value. -/
def divRow (cols : List String) (va : DF) (vcols : List String)
    (v : List ℚ) : List ℚ :=
  vcols.foldl (fun acc c =>
    acc.set (cols.indexOf c) (acc.getD (cols.indexOf c) 0 / firstVal va c)) v

theorem divRow_cons (cols : List String) (va : DF) (c : String)
    (cs : List String) (v : List ℚ) :
    divRow cols va (c :: cs) v = divRow cols va cs
      (v.set (cols.indexOf c) (v.getD (cols.indexOf c) 0 / firstVal va c)) :=
  rfl

theorem divRow_length (cols : List String) (va : DF) (vcols : List String)
    (v : List ℚ) : (divRow cols va vcols v).length = v.length := by
  induction vcols generalizing v with
  | nil => rfl
  | cons c cs ih =>
    rw [divRow_cons, ih]
    simp

theorem divideCols_cons_mem (df va : DF) (c0 : String) (cs : List String)
    (h0 : df.cols.contains c0 = true) :
    divideCols df va (c0 :: cs) =
      divideCols (divCol df c0 (firstVal va c0)) va cs := by
  conv_lhs => rw [divideCols]
  rw [h0]
  rfl

theorem divideCols_cons_missing (df va : DF) (c0 : String) (cs : List String)
    (h0 : df.cols.contains c0 = false) :
    divideCols df va (c0 :: cs) = .error (.keyError c0) := by
  conv_lhs => rw [divideCols]
  rw [h0]
  rfl

theorem divCol_cols (df : DF) (q : String) (x : ℚ) :
    (divCol df q x).cols = df.cols := rfl

theorem divideCols_ok (df va : DF) (vcols : List String)
    (h : ∀ c ∈ vcols, df.cols.contains c = true) :
    divideCols df va vcols =
      .ok { df with
            rows := df.rows.map (fun r => (r.1, divRow df.cols va vcols r.2)) } := by
  induction vcols generalizing df with
  | nil =>
    show Except.ok df = _
    have hmap : df.rows.map (fun r => (r.1, divRow df.cols va [] r.2)) =
        df.rows :=
      list_map_self _ _ (fun r _ => rfl)
    rw [hmap]
  | cons c cs ih =>
    rw [divideCols_cons_mem df va c cs (h c (by simp))]
    rw [ih (divCol df c (firstVal va c)) (fun x hx => h x (by simp [hx]))]
    show Except.ok _ = _
    unfold divCol
    rw [List.map_map]
    rfl

theorem divideCols_err (df va : DF) (vcols : List String)
    (h : ∃ c ∈ vcols, df.cols.contains c = false) :
    ∃ c, divideCols df va vcols = .error (.keyError c) := by
  induction vcols generalizing df with
  | nil =>
    rcases h with ⟨c, hc, _⟩
    cases hc
  | cons c0 cs ih =>
    cases h0 : df.cols.contains c0 with
    | false => exact ⟨c0, divideCols_cons_missing df va c0 cs h0⟩
    | true =>
      rcases h with ⟨c, hc, hcf⟩
      rcases List.mem_cons.mp hc with rfl | hcs
      · rw [h0] at hcf
        cases hcf
      · obtain ⟨c2, hc2⟩ :=
          ih (divCol df c0 (firstVal va c0)) ⟨c, hcs, hcf⟩
        exact ⟨c2, by rw [divideCols_cons_mem df va c0 cs h0]; exact hc2⟩

theorem divRow_getD (cols : List String) (va : DF) (vcols : List String)
    (hndc : cols.Nodup) (hndv : vcols.Nodup) (v : List ℚ)
    (hv : v.length = cols.length) (j : Nat) (hj : j < cols.length) :
    (divRow cols va vcols v).getD j 0 =
      if cols.getD j "" ∈ vcols then
        v.getD j 0 / firstVal va (cols.getD j "")
      else v.getD j 0 := by
  induction vcols generalizing v with
  | nil => simp [divRow]
  | cons c cs ih =>
    rw [divRow_cons,
      ih (List.nodup_cons.mp hndv).2 _ (by rw [List.length_set]; exact hv)]
    by_cases hcj : cols.getD j "" = c
    · have hidx : cols.indexOf c = j := by
        rw [← hcj]
        exact nodup_indexOf_getD cols hndc j hj
      have hnc : cols.getD j "" ∉ cs := by
        rw [hcj]
        exact (List.nodup_cons.mp hndv).1
      rw [if_neg hnc, if_pos (by rw [hcj]; simp)]
      rw [hidx, getD_set_eq _ _ _ (by omega), hcj]
    · have hidx : cols.indexOf c ≠ j := by
        intro he
        by_cases hmemc : c ∈ cols
        · apply hcj
          have hc2 := List.getElem_indexOf (List.indexOf_lt_length.mpr hmemc)
          rw [List.getD_eq_getElem cols "" hj]
          subst he
          exact hc2
        · have : cols.indexOf c = cols.length :=
            List.indexOf_eq_length.mpr hmemc
          omega
      rw [getD_set_ne _ _ _ _ hidx]
      by_cases hmem : cols.getD j "" ∈ cs
      · rw [if_pos hmem, if_pos (List.mem_cons.mpr (Or.inr hmem))]
      · have hnot : cols.getD j "" ∉ c :: cs := by
          rw [List.mem_cons]
          push_neg
          exact ⟨hcj, hmem⟩
        rw [if_neg hmem, if_neg hnot]

theorem divRow_eq_mapIdx (cols : List String) (va : DF) (vcols : List String)
    (hndc : cols.Nodup) (hndv : vcols.Nodup)
    (hcov : ∀ c, c ∈ cols → c ∈ vcols) (v : List ℚ)
    (hv : v.length = cols.length) (d : String → ℚ)
    (hd : ∀ c ∈ cols, firstVal va c = d c) :
    divRow cols va vcols v =
      v.mapIdx (fun i a => a / d (cols.getD i "")) := by
  refine List.ext_getElem (by rw [divRow_length, List.length_mapIdx]) ?_
  intro i h1 h2
  have hvi : i < v.length := by rw [divRow_length] at h1; exact h1
  have hi : i < cols.length := by omega
  rw [← List.getD_eq_getElem _ 0 h1,
    divRow_getD cols va vcols hndc hndv v hv i hi,
    if_pos (hcov _ (getD_mem_str cols i hi)), List.getElem_mapIdx,
    List.getD_eq_getElem _ 0 hvi, hd _ (getD_mem_str cols i hi)]

theorem sameSet_false_of_missing (keys : List String) (q : String)
    (hq : q ∈ quantityTriple) (h : keys.contains q = false) :
    sameSet keys quantityTriple = false := by
  have htr : quantityTriple.all (fun x => keys.contains x) = false := by
    unfold quantityTriple at hq ⊢
    simp only [List.mem_cons, List.not_mem_nil, or_false] at hq
    rcases hq with rfl | rfl | rfl <;>
      (rw [List.all_cons, List.all_cons, List.all_cons, List.all_nil, h]
       simp)
  unfold sameSet
  rw [htr, Bool.and_false]

theorem firstVal_appendCol_mem (va : DF) (x : String)
    (f : List ℚ → List ℚ → ℚ) (c : String) (hc : c ∈ va.cols)
    (hwf : ∀ r ∈ va.rows, r.2.length = va.cols.length) :
    firstVal (appendCol va x f) c = firstVal va c := by
  unfold firstVal appendCol
  cases hrows : va.rows with
  | nil => rfl
  | cons r rs =>
    simp only [List.map_cons, List.headD_cons]
    rw [List.indexOf_append_of_mem hc]
    exact getD_append_left _ _ _
      (by rw [hwf r (by rw [hrows]; simp)]
          exact List.indexOf_lt_length.mpr hc)

theorem firstVal_appendCol_new (va : DF) (x : String)
    (f : List ℚ → List ℚ → ℚ) (r0 : List ℚ × List ℚ)
    (rs : List (List ℚ × List ℚ)) (hrows : va.rows = r0 :: rs)
    (hx : x ∉ va.cols) (hwf : r0.2.length = va.cols.length) :
    firstVal (appendCol va x f) x = f r0.1 r0.2 := by
  unfold firstVal appendCol
  simp only [hrows, List.map_cons, List.headD_cons]
  rw [List.indexOf_append_of_not_mem hx]
  have hix : List.indexOf x [x] = 0 := by simp
  rw [hix, Nat.add_zero, ← hwf, getD_append_len]

theorem addMissingDFCol_power (df : DF)
    (hcap : df.cols.contains "capacity" = true)
    (hcop : df.cols.contains "COP" = true)
    (hpow : df.cols.contains "power" = false) :
    addMissingDFCol df = .ok (appendCol df "power" (fun _ v =>
      cellVal df.cols v "capacity" / cellVal df.cols v "COP")) := by
  unfold addMissingDFCol
  rw [sameSet_false_of_missing df.cols "power"
    (by unfold quantityTriple; simp) hpow]
  have hfilter : quantityTriple.filter
      (fun c => !(df.cols.contains c)) = ["power"] := by
    unfold quantityTriple
    rw [List.filter_cons, if_neg (by rw [hcap]; decide)]
    rw [List.filter_cons, if_pos (by rw [hpow]; decide)]
    rw [List.filter_cons, if_neg (by rw [hcop]; decide)]
    rfl
  rw [hfilter, hcap, hcop]
  rfl

theorem addMissingDFCol_capacity (df : DF)
    (hpow : df.cols.contains "power" = true)
    (hcop : df.cols.contains "COP" = true)
    (hcap : df.cols.contains "capacity" = false) :
    addMissingDFCol df = .ok (appendCol df "capacity" (fun _ v =>
      cellVal df.cols v "power" * cellVal df.cols v "COP")) := by
  unfold addMissingDFCol
  rw [sameSet_false_of_missing df.cols "capacity"
    (by unfold quantityTriple; simp) hcap]
  have hfilter : quantityTriple.filter
      (fun c => !(df.cols.contains c)) = ["capacity"] := by
    unfold quantityTriple
    rw [List.filter_cons, if_pos (by rw [hcap]; decide)]
    rw [List.filter_cons, if_neg (by rw [hpow]; decide)]
    rw [List.filter_cons, if_neg (by rw [hcop]; decide)]
    rfl
  rw [hfilter, hpow, hcop]
  rfl

theorem addMissingDFCol_COP (df : DF)
    (hcap : df.cols.contains "capacity" = true)
    (hpow : df.cols.contains "power" = true)
    (hcop : df.cols.contains "COP" = false) :
    addMissingDFCol df = .ok (appendCol df "COP" (fun _ v =>
      cellVal df.cols v "capacity" / cellVal df.cols v "power")) := by
  unfold addMissingDFCol
  rw [sameSet_false_of_missing df.cols "COP"
    (by unfold quantityTriple; simp) hcop]
  have hfilter : quantityTriple.filter
      (fun c => !(df.cols.contains c)) = ["COP"] := by
    unfold quantityTriple
    rw [List.filter_cons, if_neg (by rw [hcap]; decide)]
    rw [List.filter_cons, if_neg (by rw [hpow]; decide)]
    rw [List.filter_cons, if_pos (by rw [hcop]; decide)]
    rfl
  rw [hfilter, hcap, hpow]
  rfl

theorem addMissingDFCol_err (df : DF)
    (h2 : 2 ≤ (quantityTriple.filter
      (fun c => !(df.cols.contains c))).length) :
    ∃ a, addMissingDFCol df = .error (.attributeError a) := by
  cases hcap : df.cols.contains "capacity" <;>
    cases hpow : df.cols.contains "power" <;>
      cases hcop : df.cols.contains "COP"
  · -- all three missing: derive capacity, whose inputs are missing
    refine ⟨"power", ?_⟩
    unfold addMissingDFCol
    rw [sameSet_false_of_missing df.cols "capacity"
      (by unfold quantityTriple; simp) hcap]
    have hfilter : quantityTriple.filter
        (fun c => !(df.cols.contains c)) = ["capacity", "power", "COP"] := by
      unfold quantityTriple
      rw [List.filter_cons, if_pos (by rw [hcap]; decide)]
      rw [List.filter_cons, if_pos (by rw [hpow]; decide)]
      rw [List.filter_cons, if_pos (by rw [hcop]; decide)]
      rfl
    rw [hfilter, hpow]
    rfl
  · -- capacity and power missing
    refine ⟨"power", ?_⟩
    unfold addMissingDFCol
    rw [sameSet_false_of_missing df.cols "capacity"
      (by unfold quantityTriple; simp) hcap]
    have hfilter : quantityTriple.filter
        (fun c => !(df.cols.contains c)) = ["capacity", "power"] := by
      unfold quantityTriple
      rw [List.filter_cons, if_pos (by rw [hcap]; decide)]
      rw [List.filter_cons, if_pos (by rw [hpow]; decide)]
      rw [List.filter_cons, if_neg (by rw [hcop]; decide)]
      rfl
    rw [hfilter, hpow]
    rfl
  · -- capacity and COP missing
    refine ⟨"COP", ?_⟩
    unfold addMissingDFCol
    rw [sameSet_false_of_missing df.cols "capacity"
      (by unfold quantityTriple; simp) hcap]
    have hfilter : quantityTriple.filter
        (fun c => !(df.cols.contains c)) = ["capacity", "COP"] := by
      unfold quantityTriple
      rw [List.filter_cons, if_pos (by rw [hcap]; decide)]
      rw [List.filter_cons, if_neg (by rw [hpow]; decide)]
      rw [List.filter_cons, if_pos (by rw [hcop]; decide)]
      rfl
    rw [hfilter, hpow, hcop]
    rfl
  · -- only capacity missing: excluded by the hypothesis
    exfalso
    have hfilter : quantityTriple.filter
        (fun c => !(df.cols.contains c)) = ["capacity"] := by
      unfold quantityTriple
      rw [List.filter_cons, if_pos (by rw [hcap]; decide)]
      rw [List.filter_cons, if_neg (by rw [hpow]; decide)]
      rw [List.filter_cons, if_neg (by rw [hcop]; decide)]
      rfl
    rw [hfilter] at h2
    exact absurd h2 (by decide)
  · -- power and COP missing
    refine ⟨"COP", ?_⟩
    unfold addMissingDFCol
    rw [sameSet_false_of_missing df.cols "power"
      (by unfold quantityTriple; simp) hpow]
    have hfilter : quantityTriple.filter
        (fun c => !(df.cols.contains c)) = ["power", "COP"] := by
      unfold quantityTriple
      rw [List.filter_cons, if_neg (by rw [hcap]; decide)]
      rw [List.filter_cons, if_pos (by rw [hpow]; decide)]
      rw [List.filter_cons, if_pos (by rw [hcop]; decide)]
      rfl
    rw [hfilter, hcap, hcop]
    rfl
  · -- only power missing: excluded
    exfalso
    have hfilter : quantityTriple.filter
        (fun c => !(df.cols.contains c)) = ["power"] := by
      unfold quantityTriple
      rw [List.filter_cons, if_neg (by rw [hcap]; decide)]
      rw [List.filter_cons, if_pos (by rw [hpow]; decide)]
      rw [List.filter_cons, if_neg (by rw [hcop]; decide)]
      rfl
    rw [hfilter] at h2
    exact absurd h2 (by decide)
  · -- only COP missing: excluded
    exfalso
    have hfilter : quantityTriple.filter
        (fun c => !(df.cols.contains c)) = ["COP"] := by
      unfold quantityTriple
      rw [List.filter_cons, if_neg (by rw [hcap]; decide)]
      rw [List.filter_cons, if_neg (by rw [hpow]; decide)]
      rw [List.filter_cons, if_pos (by rw [hcop]; decide)]
      rfl
    rw [hfilter] at h2
    exact absurd h2 (by decide)
  · -- nothing missing: excluded
    exfalso
    have hfilter : quantityTriple.filter
        (fun c => !(df.cols.contains c)) = [] := by
      unfold quantityTriple
      rw [List.filter_cons, if_neg (by rw [hcap]; decide)]
      rw [List.filter_cons, if_neg (by rw [hpow]; decide)]
      rw [List.filter_cons, if_neg (by rw [hcop]; decide)]
      rfl
    rw [hfilter] at h2
    exact absurd h2 (by decide)

theorem checkMode_ok (t : Table) (md : String) (hm : t.mode = some md)
    (s : String) : checkMode t s = .ok () := by
  unfold checkMode
  rw [hm]

theorem list_map_congr {α β : Type} (l : List α) (f g : α → β)
    (h : ∀ a ∈ l, f a = g a) : l.map f = l.map g := by
  induction l with
  | nil => rfl
  | cons a t ih =>
    rw [List.map_cons, List.map_cons, h a (by simp),
      ih (fun x hx => h x (by simp [hx]))]

theorem diffSet_nil_subset (a b : List String) (h : diffSet a b = []) :
    ∀ c ∈ a, b.contains c = true := by
  intro c hc
  have hf := List.filter_eq_nil_iff.mp h c hc
  cases hcb : b.contains c
  · simp [hcb] at hf
    exact absurd hf (by simpa using hcb)
  · rfl

theorem diffSet_single (a b : List String) (x : String)
    (h : diffSet a b = [x]) : x ∈ a ∧ b.contains x = false := by
  have hx : x ∈ diffSet a b := by rw [h]; simp
  have hm := List.mem_filter.mp hx
  refine ⟨hm.1, ?_⟩
  have h2 := hm.2
  cases hcb : b.contains x
  · rfl
  · rw [hcb] at h2
    exact absurd h2 (by decide)

theorem diffSet_single_unique (a b : List String) (x : String)
    (h : diffSet a b = [x]) :
    ∀ c ∈ a, b.contains c = false → c = x := by
  intro c hc hcb
  have hmem : c ∈ diffSet a b :=
    List.mem_filter.mpr ⟨hc, by rw [hcb]; rfl⟩
  rw [h] at hmem
  simpa using hmem

theorem properSubset_single (x : String) (hx : x ∈ quantityTriple) :
    properSubset [x] quantityTriple = true := by
  have hx2 : x = "capacity" ∨ x = "power" ∨ x = "COP" := by
    simpa [quantityTriple] using hx
  rcases hx2 with rfl | rfl | rfl <;> decide

/-- The value of a missing output quantity derived by the column-level
algebraic identity of `_add_missing_df_column`, applied to one row. -/
def derivedCell (cols : List String) (v : List ℚ) (x : String) : ℚ :=
  if x = "power" then cellVal cols v "capacity" / cellVal cols v "COP"
  else if x = "capacity" then cellVal cols v "power" * cellVal cols v "COP"
  else cellVal cols v "capacity" / cellVal cols v "power"

/-- The rated value of the quantity missing from the rated-values frame,
derived by the column-level identity from the one rated row. -/
def derivedRated (va : DF) (x : String) : ℚ :=
  if x = "power" then firstVal va "capacity" / firstVal va "COP"
  else if x = "capacity" then firstVal va "power" * firstVal va "COP"
  else firstVal va "capacity" / firstVal va "power"

theorem derivedRated_eq_cell (va : DF) (x : String) (r0 : List ℚ × List ℚ)
    (rs : List (List ℚ × List ℚ)) (hrows : va.rows = r0 :: rs) :
    derivedRated va x = derivedCell va.cols r0.2 x := by
  unfold derivedRated derivedCell firstVal cellVal
  rw [hrows]
  rfl

theorem addMissingDFCol_missing (df : DF) (x : String)
    (hx : x ∈ quantityTriple) (hmiss : df.cols.contains x = false)
    (hoth : ∀ y ∈ quantityTriple, y ≠ x → df.cols.contains y = true) :
    addMissingDFCol df =
      .ok (appendCol df x (fun _ v => derivedCell df.cols v x)) := by
  have hx2 : x = "capacity" ∨ x = "power" ∨ x = "COP" := by
    simpa [quantityTriple] using hx
  rcases hx2 with rfl | rfl | rfl
  · exact addMissingDFCol_capacity df
      (hoth "power" (by unfold quantityTriple; simp) (by decide))
      (hoth "COP" (by unfold quantityTriple; simp) (by decide)) hmiss
  · exact addMissingDFCol_power df
      (hoth "capacity" (by unfold quantityTriple; simp) (by decide))
      (hoth "COP" (by unfold quantityTriple; simp) (by decide)) hmiss
  · exact addMissingDFCol_COP df
      (hoth "capacity" (by unfold quantityTriple; simp) (by decide))
      (hoth "power" (by unfold quantityTriple; simp) (by decide)) hmiss

/-- The rows of the normalization result when the rated-values frame was
missing quantity `x`: each value divided by its (derived, for `x`) rated
value. -/
def b1Rows (t : Table) (va : DF) (x : String) : List (List ℚ × List ℚ) :=
  t.df.rows.map (fun r => (r.1, r.2.mapIdx (fun i a =>
    a / (if t.df.cols.getD i "" = x then derivedRated va x
         else firstVal va (t.df.cols.getD i "")))))

/-- The normalization result when the rated-values frame was missing
quantity `x`. -/
def b1Result (t : Table) (va : DF) (x : String) : Table :=
  { t with normalized := true, df := { t.df with rows := b1Rows t va x } }

theorem normalizeT_unfold (t : Table) (md : String) (va : DF)
    (hm : t.mode = some md) (hn : t.normalized = false) :
    normalizeT t (some va) =
      if properSubset (symmDiff t.df.cols va.cols) quantityTriple then
        match (if t.df.cols.length > va.cols.length then addMissingDFCol va
               else .ok va) with
        | .error e => .error e
        | .ok va2 =>
          match (if t.df.cols.length < va.cols.length then
                 (.error (.attributeError "_obj") : Except PyErr DF)
                 else .ok t.df) with
          | .error e => .error e
          | .ok df2 =>
            match divideCols df2 va2 va2.cols with
            | .error e => .error e
            | .ok df3 => .ok { t with df := df3, normalized := true }
      else .error (.valueErrorCols
          "DataFrame column index must match values column index."
          t.df.cols va.cols) := by
  unfold normalizeT
  rw [if_neg (by simp [hn]), checkMode_ok t md hm]

/-- C3 (amended): `normalize` reconciles the column sets as follows.  When
the symmetric difference of the two column sets is not a proper subset of
{capacity, power, COP}, it raises `ValueError` naming the columns of both
sides (clause A).  When the rated-values side is missing exactly one
quantity of the triple and the two quantities needed to derive it are
present on that side, the missing rated column is derived by the algebraic
identity and every map column is divided by its rated value (clause B).
The remaining mismatch cases, which the original claim said would raise
the naming `ValueError`, instead fail differently: whenever the map side
has fewer columns, evaluating `pm._obj` on a plain DataFrame raises
`AttributeError('_obj')` (clause C1); balanced two-sided differences reach
the division loop and raise `KeyError` (clause C2); and a rated side
missing two or more of the triple makes the completion raise
`AttributeError` naming a needed quantity (clause C3). -/
theorem C3_normalize_reconcile (t : Table) (md : String) (va : DF)
    (hm : t.mode = some md) (hn : t.normalized = false) :
    (properSubset (symmDiff t.df.cols va.cols) quantityTriple = false →
      normalizeT t (some va) = .error (.valueErrorCols
        "DataFrame column index must match values column index."
        t.df.cols va.cols)) ∧
    (∀ x r0, x ∈ quantityTriple →
      diffSet t.df.cols va.cols = [x] → diffSet va.cols t.df.cols = [] →
      (∀ y ∈ quantityTriple, y ≠ x → va.cols.contains y = true) →
      va.cols.length < t.df.cols.length →
      va.rows = [r0] → r0.2.length = va.cols.length →
      t.df.cols.Nodup → va.cols.Nodup →
      (∀ r ∈ t.df.rows, r.2.length = t.df.cols.length) →
      normalizeT t (some va) = .ok (b1Result t va x)) ∧
    (properSubset (symmDiff t.df.cols va.cols) quantityTriple = true →
      t.df.cols.length < va.cols.length →
      normalizeT t (some va) = .error (.attributeError "_obj")) ∧
    (∀ x y, diffSet t.df.cols va.cols = [x] →
      diffSet va.cols t.df.cols = [y] →
      properSubset (symmDiff t.df.cols va.cols) quantityTriple = true →
      t.df.cols.length = va.cols.length →
      ∃ c, normalizeT t (some va) = .error (.keyError c)) ∧
    (properSubset (symmDiff t.df.cols va.cols) quantityTriple = true →
      va.cols.length < t.df.cols.length →
      2 ≤ (quantityTriple.filter (fun c => !(va.cols.contains c))).length →
      ∃ a, normalizeT t (some va) = .error (.attributeError a)) := by
  refine ⟨fun hA => ?_,
    fun x r0 hx hd1 hd2 hoth hlen hrows0 hwf0 hndP hndV hwfP => ?_,
    fun hps hlen => ?_,
    fun x y hd1 hd2 hps hleq => ?_, fun hps hlen hcnt => ?_⟩
  · rw [normalizeT_unfold t md va hm hn, if_neg (by simp [hA])]
  · -- B1: the rated-values frame is completed, then every map column is
    -- divided by its (possibly derived) rated value
    obtain ⟨hxm, hxva⟩ := diffSet_single _ _ _ hd1
    have hsub := diffSet_nil_subset _ _ hd2
    have hxnm : x ∉ va.cols := by simpa using hxva
    have hadd := addMissingDFCol_missing va x hx hxva hoth
    have hsym : symmDiff t.df.cols va.cols = [x] := by
      unfold symmDiff
      rw [hd1, hd2]
      rfl
    have hps2 : properSubset (symmDiff t.df.cols va.cols) quantityTriple =
        true := by
      rw [hsym]
      exact properSubset_single x hx
    have hbr1 : (if t.df.cols.length > va.cols.length then
        addMissingDFCol va else .ok va) =
        .ok (appendCol va x (fun _ v => derivedCell va.cols v x)) := by
      rw [if_pos hlen, hadd]
    have hbr2 : (if t.df.cols.length < va.cols.length then
        (.error (.attributeError "_obj") : Except PyErr DF)
        else .ok t.df) = .ok t.df := by
      rw [if_neg (by omega)]
    have hwfV : ∀ r ∈ va.rows, r.2.length = va.cols.length := by
      intro r hr
      rw [hrows0] at hr
      rw [List.mem_singleton.mp hr]
      exact hwf0
    have hsubcols : ∀ c ∈ (appendCol va x
        (fun _ v => derivedCell va.cols v x)).cols,
        t.df.cols.contains c = true := by
      intro c hc
      have hc2 : c ∈ va.cols ++ [x] := hc
      rcases List.mem_append.mp hc2 with h1 | h1
      · exact hsub c h1
      · rw [List.mem_singleton.mp h1]
        simpa using hxm
    have hdiv := divideCols_ok t.df
      (appendCol va x (fun _ v => derivedCell va.cols v x))
      (appendCol va x (fun _ v => derivedCell va.cols v x)).cols hsubcols
    rw [normalizeT_unfold t md va hm hn, if_pos hps2]
    simp only [hbr1, hbr2, hdiv]
    have hrows : t.df.rows.map (fun r => (r.1, divRow t.df.cols
        (appendCol va x (fun _ v => derivedCell va.cols v x))
        (appendCol va x (fun _ v => derivedCell va.cols v x)).cols r.2)) =
        b1Rows t va x := by
      unfold b1Rows
      refine list_map_congr _ _ _ (fun r hr => ?_)
      have hndva2 : ((appendCol va x
          (fun _ v => derivedCell va.cols v x)).cols).Nodup := by
        show (va.cols ++ [x]).Nodup
        rw [List.nodup_append]
        refine ⟨hndV, List.nodup_singleton x, fun a ha => ?_⟩
        simp only [List.mem_singleton]
        rintro rfl
        exact hxnm ha
      have hcov : ∀ c, c ∈ t.df.cols → c ∈ (appendCol va x
          (fun _ v => derivedCell va.cols v x)).cols := by
        intro c hc
        show c ∈ va.cols ++ [x]
        cases hcv : va.cols.contains c with
        | true => exact List.mem_append.mpr (Or.inl (by simpa using hcv))
        | false =>
          exact List.mem_append.mpr (Or.inr (by
            rw [diffSet_single_unique _ _ _ hd1 c hc hcv]
            simp))
      have hd : ∀ c ∈ t.df.cols, firstVal (appendCol va x
          (fun _ v => derivedCell va.cols v x)) c =
          (if c = x then derivedRated va x else firstVal va c) := by
        intro c hc
        by_cases hcx : c = x
        · subst hcx
          rw [if_pos rfl,
            firstVal_appendCol_new va c _ r0 [] hrows0 hxnm hwf0,
            derivedRated_eq_cell va c r0 [] hrows0]
        · rw [if_neg hcx]
          have hcv : va.cols.contains c = true := by
            cases hcv2 : va.cols.contains c with
            | true => rfl
            | false =>
              exact absurd (diffSet_single_unique _ _ _ hd1 c hc hcv2) hcx
          exact firstVal_appendCol_mem va x _ c (by simpa using hcv) hwfV
      rw [divRow_eq_mapIdx t.df.cols _ _ hndP hndva2 hcov r.2 (hwfP r hr)
        (fun c => if c = x then derivedRated va x else firstVal va c) hd]
    rw [hrows]
    rfl
  · -- the map side is smaller: line 279 evaluates `pm._obj` on a plain
    -- DataFrame and raises AttributeError before any completion happens
    have hbr1 : (if t.df.cols.length > va.cols.length then
        addMissingDFCol va else .ok va) = .ok va := by
      rw [if_neg (by omega)]
    have hbr2 : (if t.df.cols.length < va.cols.length then
        (.error (.attributeError "_obj") : Except PyErr DF)
        else .ok t.df) =
        .error (.attributeError "_obj") := by
      rw [if_pos hlen]
    rw [normalizeT_unfold t md va hm hn, if_pos hps]
    simp only [hbr1, hbr2]
  · -- C1
    obtain ⟨hym, hypm⟩ := diffSet_single _ _ _ hd2
    obtain ⟨c, hc⟩ := divideCols_err t.df va va.cols ⟨y, hym, hypm⟩
    refine ⟨c, ?_⟩
    have hbr1 : (if t.df.cols.length > va.cols.length then
        addMissingDFCol va else .ok va) = .ok va := by
      rw [if_neg (by omega)]
    have hbr2 : (if t.df.cols.length < va.cols.length then
        (.error (.attributeError "_obj") : Except PyErr DF)
        else .ok t.df) = .ok t.df := by
      rw [if_neg (by omega)]
    rw [normalizeT_unfold t md va hm hn, if_pos hps]
    simp only [hbr1, hbr2, hc]
  · -- C2
    obtain ⟨a, ha⟩ := addMissingDFCol_err va hcnt
    refine ⟨a, ?_⟩
    have hbr1 : (if t.df.cols.length > va.cols.length then
        addMissingDFCol va else .ok va) = .error (.attributeError a) := by
      rw [if_pos hlen, ha]
    rw [normalizeT_unfold t md va hm hn, if_pos hps]
    simp only [hbr1]

/-- A map with columns {capacity, power} (mode set, not normalized), for
the C3 counterexample. -/
def exPmC3 : Table :=
  { df := ⟨["i"], none, ["capacity", "power"], []⟩, mode := some "cooling",
    normalized := false, entries := [], corrections := none,
    manvalFactors := none }

/-- A one-row rated-values frame with columns {capacity, COP}. -/
def exVaC3 : DF := ⟨[], none, ["capacity", "COP"], [([], [1, 1])]⟩

/-- C3 counterexample: the map has columns {capacity, power} and the rated
values have columns {capacity, COP}.  The column sets differ in a way that
is not a single missing quantity, so the claim says `normalize` fails with
a `ValueError` naming the mismatched columns.  The code instead enters the
reconciliation branch (the symmetric difference {power, COP} is a strict
subset of the triple), performs no completion because the columns counts
are equal, and the division loop raises `KeyError('COP')` — not a
`ValueError`. -/
theorem C3_counterexample :
    normalizeT exPmC3 (some exVaC3) = .error (.keyError "COP") ∧
    isValueErrorResult (normalizeT exPmC3 (some exVaC3)) = false :=
  ⟨rfl, rfl⟩

/-- A map with the full triple of columns, for the C3 witness. -/
def exPmC3w : Table :=
  { df := ⟨["i"], none, ["capacity", "power", "COP"], []⟩,
    mode := some "cooling", normalized := false, entries := [],
    corrections := none, manvalFactors := none }

/-- A one-row rated-values frame missing only `COP`. -/
def exVaC3w : DF := ⟨[], none, ["capacity", "power"], [([], [2, 1])]⟩

/-- Witness for C3: with rated values missing only `COP`, normalization
derives it and succeeds. -/
theorem C3_witness :
    normalizeT exPmC3w (some exVaC3w) = .ok (b1Result exPmC3w exVaC3w "COP") :=
  (C3_normalize_reconcile exPmC3w "cooling" exVaC3w rfl rfl).2.1 "COP"
    ([], [2, 1]) (by decide) (by decide) (by decide) (by decide) (by decide)
    rfl (by decide) (by decide) (by decide) (by decide)

/-! ## Claim C9 -/

/-- True when a string contains no parentheses (so that the export's
`replace('(', '')...` leaves it unchanged). -/
def noParens (s : String) : Bool :=
  s.toList.all (fun c => c != Char.ofNat 40 && c != Char.ofNat 41)

theorem string_toList_append (a b : String) :
    (a ++ b).toList = a.toList ++ b.toList := by
  simp [String.toList]

theorem noParens_append (a b : String) (ha : noParens a = true)
    (hb : noParens b = true) : noParens (a ++ b) = true := by
  unfold noParens at *
  rw [string_toList_append, List.all_append, ha, hb]
  rfl

theorem stripParens_eq_self (s : String) (h : noParens s = true) :
    stripParens s = s := by
  unfold stripParens
  rw [List.filter_eq_self.mpr (List.all_eq_true.mp h)]
  cases s
  rfl

/-- C9: for a table with two index levels (2 and 3 unique values), the
exported file contains, top to bottom: the fixed warning banner, the
`Number of <A> data points` line with count 2, the `Number of <B> data
points` line with count 3, the `<A> values` line joining the 2 unique
values with tabs, the `<B> values` line joining the 3 unique values, the
performance-map banner, and the tab-separated body.  Stated for level
names without parentheses (which the export would strip). -/
theorem C9_print_permap (df : DF) (nameA nameB : String)
    (hnames : df.names = [nameA, nameB])
    (hA : (uniqueList (levelValuesIdx df 0)).length = 2)
    (hB : (uniqueList (levelValuesIdx df 1)).length = 3)
    (hpa : noParens nameA = true) (hpb : noParens nameB = true) :
    printPermapLines df "row" = .ok (warningLines ++
      ["!# Number of " ++ nameA ++ " data points", "   2",
       "!# Number of " ++ nameB ++ " data points", "   3",
       "!# " ++ nameA ++ " values",
       stripParens ("   " ++ String.intercalate "\t"
         ((uniqueList (levelValuesIdx df 0)).map (fun q => toString q))),
       "!# " ++ nameB ++ " values",
       stripParens ("   " ++ String.intercalate "\t"
         ((uniqueList (levelValuesIdx df 1)).map (fun q => toString q)))] ++
      ["!#", "!# Performance map", "!#"] ++ csvLines df) := by
  have hrange : List.range df.names.length = [0, 1] := by rw [hnames]; rfl
  have hname0 : fetchName df 0 = nameA := by
    unfold fetchName
    rw [hnames]
    rfl
  have hname1 : fetchName df 1 = nameB := by
    unfold fetchName
    rw [hnames]
    rfl
  have hc0 : countLines df 0 =
      ["!# Number of " ++ nameA ++ " data points", "   2"] := by
    unfold countLines
    rw [hname0, hA]
    rw [stripParens_eq_self _ (noParens_append _ _ (noParens_append _ _
      (by decide) hpa) (by decide))]
    rw [show stripParens ("   " ++ toString 2) = "   2" from by decide]
  have hc1 : countLines df 1 =
      ["!# Number of " ++ nameB ++ " data points", "   3"] := by
    unfold countLines
    rw [hname1, hB]
    rw [stripParens_eq_self _ (noParens_append _ _ (noParens_append _ _
      (by decide) hpb) (by decide))]
    rw [show stripParens ("   " ++ toString 3) = "   3" from by decide]
  have hv0 : valuesLines df 0 = ["!# " ++ nameA ++ " values",
      stripParens ("   " ++ String.intercalate "\t"
        ((uniqueList (levelValuesIdx df 0)).map (fun q => toString q)))] := by
    unfold valuesLines
    rw [hname0]
    rw [stripParens_eq_self _ (noParens_append _ _ (noParens_append _ _
      (by decide) hpa) (by decide))]
  have hv1 : valuesLines df 1 = ["!# " ++ nameB ++ " values",
      stripParens ("   " ++ String.intercalate "\t"
        ((uniqueList (levelValuesIdx df 1)).map (fun q => toString q)))] := by
    unfold valuesLines
    rw [hname1]
    rw [stripParens_eq_self _ (noParens_append _ _ (noParens_append _ _
      (by decide) hpb) (by decide))]
  have hstart : printPermapLines df "row" = .ok (warningLines ++
      ((List.range df.names.length).flatMap (fun i => countLines df i)) ++
      ((List.range df.names.length).flatMap (fun i => valuesLines df i)) ++
      ["!#", "!# Performance map", "!#"] ++ csvLines df) := rfl
  rw [hstart, hrange]
  simp only [List.flatMap_cons, List.flatMap_nil, List.append_nil,
    hc0, hc1, hv0, hv1]
  simp [List.append_assoc]

/-- A concrete table with index levels `T1` (2 unique values) and `T2`
(3 unique values), for the C9 witness. -/
def exDFC9 : DF :=
  ⟨["T1", "T2"], none, ["p"],
   [([1, 1], [1]), ([1, 2], [1]), ([1, 3], [1]),
    ([2, 1], [1]), ([2, 2], [1]), ([2, 3], [1])]⟩

/-- Witness for C9 at the concrete two-level table. -/
theorem C9_witness :
    printPermapLines exDFC9 "row" = .ok (warningLines ++
      ["!# Number of " ++ "T1" ++ " data points", "   2",
       "!# Number of " ++ "T2" ++ " data points", "   3",
       "!# " ++ "T1" ++ " values",
       stripParens ("   " ++ String.intercalate "\t"
         ((uniqueList (levelValuesIdx exDFC9 0)).map (fun q => toString q))),
       "!# " ++ "T2" ++ " values",
       stripParens ("   " ++ String.intercalate "\t"
         ((uniqueList (levelValuesIdx exDFC9 1)).map (fun q => toString q)))] ++
      ["!#", "!# Performance map", "!#"] ++ csvLines exDFC9) :=
  C9_print_permap exDFC9 "T1" "T2" rfl (by decide) (by decide)
    (by decide) (by decide)

/-! ## Claim C2 -/

theorem getCorrection_ok (t : Table) (md : String) (cs : Corrections)
    (iq : String) (v : CorrVal) (hm : t.mode = some md)
    (hc : t.corrections = some cs) (hlk : lookupA iq cs = some v) :
    getCorrection t iq = .ok v := by
  simp only [getCorrection, checkMode_ok t md hm, hc, hlk]

theorem extend_rows_wf (df : DF) (corrs : List (String × Curve))
    (entries : List ℚ) (manval : ℚ) (n : Nat)
    (hwf : ∀ r ∈ df.rows, r.2.length = n) :
    ∀ r ∈ entries.flatMap (fun e =>
      (correctedDF df corrs e manval).rows.map
        (fun r => ((e :: r.1 : List ℚ), r.2))), r.2.length = n := by
  intro r hr
  obtain ⟨e, _, hre⟩ := List.mem_flatMap.mp hr
  obtain ⟨r0, hr0, rfl⟩ := List.mem_map.mp hre
  obtain ⟨_, _, _, f, hfrows, hfp⟩ := correctedDF_shape df corrs e manval
  rw [hfrows] at hr0
  obtain ⟨r1, hr1, rfl⟩ := List.mem_map.mp hr0
  show (f r1).2.length = n
  rw [(hfp r1).2]
  exact hwf r1 hr1

theorem normalizeT_stage6 (t : Table) (df5 : DF) (norm : Option DF)
    (hmode : t.mode = some "cooling") (hnz : t.normalized = false)
    (hcols5 : df5.cols = ["capacity", "power", "COP"])
    (hnorm : norm = none ∨ ∃ rv, norm = some rv ∧
      rv.cols = ["capacity", "power"] ∧ rv.rows.length = 1) :
    ∃ t6 G, normalizeT { t with df := df5 } norm = .ok t6 ∧
      t6.df.names = df5.names ∧ t6.df.cols = df5.cols ∧
      t6.df.rows = df5.rows.map G ∧
      ∀ r, (G r).1 = r.1 ∧ (G r).2.length = r.2.length := by
  rcases hnorm with rfl | ⟨rv, rfl, hrvc, _⟩
  · refine ⟨{ t with df := df5 }, fun r => r, ?_, rfl, rfl,
      (List.map_id' df5.rows).symm, fun r => ⟨rfl, rfl⟩⟩
    unfold normalizeT
    rw [if_neg (show ¬(({ t with df := df5 } : Table).normalized = true)
      from by simp [hnz])]
    rw [checkMode_ok { t with df := df5 } "cooling" hmode]
  · have hun := normalizeT_unfold { t with df := df5 } "cooling" rv hmode hnz
    have hsym : symmDiff df5.cols rv.cols = ["COP"] := by
      rw [hcols5, hrvc]
      decide
    have hps : properSubset (symmDiff df5.cols rv.cols) quantityTriple =
        true := by
      rw [hsym]
      decide
    have hbr1 : (if df5.cols.length > rv.cols.length then addMissingDFCol rv
        else .ok rv) = .ok (appendCol rv "COP" (fun _ v =>
          cellVal rv.cols v "capacity" / cellVal rv.cols v "power")) := by
      rw [if_pos (show rv.cols.length < df5.cols.length from by
        rw [hcols5, hrvc]; decide)]
      exact addMissingDFCol_COP rv (by rw [hrvc]; decide)
        (by rw [hrvc]; decide) (by rw [hrvc]; decide)
    have hbr2 : (if df5.cols.length < rv.cols.length then
        (.error (.attributeError "_obj") : Except PyErr DF)
        else .ok df5) = .ok df5 := by
      rw [if_neg (show ¬(df5.cols.length < rv.cols.length) from by
        rw [hcols5, hrvc]; decide)]
    have hsubc : ∀ c ∈ (appendCol rv "COP" (fun _ v =>
        cellVal rv.cols v "capacity" / cellVal rv.cols v "power")).cols,
        df5.cols.contains c = true := by
      intro c hc
      have hc2 : c ∈ rv.cols ++ ["COP"] := hc
      rw [hrvc] at hc2
      rw [hcols5]
      simp only [List.mem_append, List.mem_cons,
        List.not_mem_nil, or_false] at hc2
      rcases hc2 with (rfl | rfl) | rfl <;> decide
    have hdiv := divideCols_ok df5 (appendCol rv "COP" (fun _ v =>
      cellVal rv.cols v "capacity" / cellVal rv.cols v "power"))
      (appendCol rv "COP" (fun _ v =>
        cellVal rv.cols v "capacity" / cellVal rv.cols v "power")).cols hsubc
    rw [hun, if_pos hps]
    simp only [hbr1, hbr2, hdiv]
    exact ⟨_, _, rfl, rfl, rfl, rfl, fun r => ⟨rfl, divRow_length _ _ _ _⟩⟩

theorem appendCol_wf (df : DF) (name : String) (f : List ℚ → List ℚ → ℚ)
    (n : Nat) (h : ∀ r ∈ df.rows, r.2.length = n) :
    ∀ r ∈ (appendCol df name f).rows, r.2.length = n + 1 := by
  intro r hr
  obtain ⟨r0, hr0, rfl⟩ := List.mem_map.mp hr
  show (r0.2 ++ [f r0.1 r0.2]).length = n + 1
  rw [List.length_append, h r0 hr0]
  rfl

theorem dropLevel_wf (df : DF) (name : String) (n : Nat)
    (h : ∀ r ∈ df.rows, r.2.length = n) :
    ∀ r ∈ (dropLevel df name).rows, r.2.length = n := by
  intro r hr
  obtain ⟨r0, hr0, rfl⟩ := List.mem_map.mp hr
  exact h r0 hr0

theorem extend_rows_ne_nil (df : DF) (corrs : List (String × Curve))
    (manval : ℚ) (e0 : ℚ) (es : List ℚ) (hdf : df.rows ≠ []) :
    (e0 :: es).flatMap (fun e =>
      (correctedDF df corrs e manval).rows.map
        (fun r => ((e :: r.1 : List ℚ), r.2))) ≠ [] := by
  obtain ⟨_, _, _, f, hfrows, _⟩ := correctedDF_shape df corrs e0 manval
  cases hr : df.rows with
  | nil => exact absurd hr hdf
  | cons r rs =>
    have hmem : ((e0 :: (f r).1, (f r).2) : List ℚ × List ℚ) ∈
        (e0 :: es).flatMap (fun e =>
          (correctedDF df corrs e manval).rows.map
            (fun r => ((e :: r.1 : List ℚ), r.2))) := by
      refine List.mem_flatMap.mpr ⟨e0, by simp, ?_⟩
      refine List.mem_map.mpr ⟨f r, ?_, rfl⟩
      rw [hfrows, hr]
      simp
    exact List.ne_nil_of_mem hmem

theorem levelValues_ne_nil (df : DF) (name : String) (h : df.rows ≠ []) :
    levelValues df name ≠ [] :=
  fun hc => h (List.map_eq_nil_iff.mp hc)

theorem uniqueList_ne_nil (l : List ℚ) (h : l ≠ []) : uniqueList l ≠ [] := by
  cases l with
  | nil => exact absurd rfl h
  | cons x xs => exact List.cons_ne_nil _ _

theorem extendDF_shape (df : DF) (corrs : List (String × Curve))
    (entries : List ℚ) (name : String) (mv : List (String × ℚ)) (manval : ℚ)
    (hchk : sameSet df.cols (corrs.map Prod.fst) = true)
    (hlk : lookupA name mv = some manval) (hne : entries ≠ []) :
    ∃ d, extendDF df corrs entries name (some mv) = .ok d ∧
      d.names = name :: df.names ∧ d.cols = df.cols ∧
      (∀ n, (∀ r ∈ df.rows, r.2.length = n) → ∀ r ∈ d.rows, r.2.length = n) ∧
      (df.rows ≠ [] → d.rows ≠ []) := by
  cases entries with
  | nil => exact absurd rfl hne
  | cons e0 es =>
    exact ⟨_, extendDF_ok df corrs (e0 :: es) name mv manval hchk hlk hne,
      rfl, rfl,
      fun n hwf => extend_rows_wf df corrs (e0 :: es) manval n hwf,
      fun hdf => extend_rows_ne_nil df corrs manval e0 es hdf⟩

theorem coolingSplit_spec (df6 : DF) (shr : Curve)
    (hn : df6.names = ["Twbr", "AFR", "freq", "Tdbr", "Tdbo"])
    (hc : df6.cols = ["capacity", "power", "COP"])
    (hwf : ∀ r ∈ df6.rows, r.2.length = 3) :
    (reindexCols (sortRows (reorderLevels
        (dropCol (latCol (shrCol df6 shr)) "capacity")
        ["Tdbr", "Twbr", "Tdbo", "AFR", "freq"]))
      ["power", "sensible_capacity", "latent_capacity"]).cols =
        ["power", "sensible_capacity", "latent_capacity"] ∧
    (reindexCols (sortRows (reorderLevels
        (dropCol (latCol (shrCol df6 shr)) "capacity")
        ["Tdbr", "Twbr", "Tdbo", "AFR", "freq"]))
      ["power", "sensible_capacity", "latent_capacity"]).names =
        ["Tdbr", "Twbr", "Tdbo", "AFR", "freq"] ∧
    ∀ r ∈ (reindexCols (sortRows (reorderLevels
        (dropCol (latCol (shrCol df6 shr)) "capacity")
        ["Tdbr", "Twbr", "Tdbo", "AFR", "freq"]))
      ["power", "sensible_capacity", "latent_capacity"]).rows,
      ∃ cap : ℚ,
        r.2.getD 1 0 = cap * shr (r.1.getD 0 0 - r.1.getD 1 0) ∧
        r.2.getD 2 0 = cap - r.2.getD 1 0 := by
  refine ⟨rfl, rfl, ?_⟩
  intro r hr
  obtain ⟨r4, hr4, rfl⟩ := List.mem_map.mp hr
  have hr4b : r4 ∈ (reorderLevels
      (dropCol (latCol (shrCol df6 shr)) "capacity")
      ["Tdbr", "Twbr", "Tdbo", "AFR", "freq"]).rows :=
    (List.perm_insertionSort _ _).mem_iff.mp hr4
  obtain ⟨r3, hr3, rfl⟩ := List.mem_map.mp hr4b
  obtain ⟨r2, hr2, rfl⟩ := List.mem_map.mp hr3
  obtain ⟨r1, hr1, rfl⟩ := List.mem_map.mp hr2
  obtain ⟨r6, hr6, rfl⟩ := List.mem_map.mp hr1
  obtain ⟨k6, v6⟩ := r6
  obtain ⟨a, b, c, rfl⟩ := List.length_eq_three.mp (hwf _ hr6)
  simp only [shrCol, latCol, appendCol, dropCol, reorderLevels, reindexCols,
    sortRows, cellVal, hn, hc]
  exact ⟨a, rfl, rfl⟩

/-- C2: for a cooling-mode table with the required corrections (triples of
curves for `freq`, `AFR` and `Twbr`, a bare callable for `SHR`), nonempty
entries for `freq` and `AFR`, manual-value factors for the three extended
quantities, the canonical rated-table layout (`Tdbr`/`Twbr`/`Tdbo` index,
`capacity`/`power` columns) with at least one row (so that no `pd.concat`
ever sees an empty extrusion list) and an admissible `norm` argument, `fillmap`
succeeds and returns a frame whose columns are exactly
`[power, sensible_capacity, latent_capacity]`, whose row-index levels are
`[Tdbr, Twbr, Tdbo, AFR, freq]`, and in which every row carries a capacity
value `cap` (the possibly normalized capacity) with
`sensible_capacity = cap * SHR(Tdbr - Twbr)` and
`latent_capacity = cap - sensible_capacity`. -/
theorem C2_fillmap_cooling
    (t : Table) (norm : Option DF) (cs : Corrections)
    (F A W : List (String × Curve)) (shr : Curve)
    (freqEntries afrEntries : List ℚ) (mv : List (String × ℚ))
    (mvF mvA mvT : ℚ)
    (hmode : t.mode = some "cooling")
    (hnz : t.normalized = false)
    (hnames : t.df.names = ["Tdbr", "Twbr", "Tdbo"])
    (hcols : t.df.cols = ["capacity", "power"])
    (hwf : ∀ r ∈ t.df.rows, r.2.length = 2)
    (hrows : t.df.rows ≠ [])
    (hcorr : t.corrections = some cs)
    (hF : lookupA "freq" cs = some (.curves F))
    (hFk : sameSet ["capacity", "power", "COP"] (F.map Prod.fst) = true)
    (hA : lookupA "AFR" cs = some (.curves A))
    (hAk : sameSet ["capacity", "power", "COP"] (A.map Prod.fst) = true)
    (hW : lookupA "Twbr" cs = some (.curves W))
    (hWk : sameSet ["capacity", "power", "COP"] (W.map Prod.fst) = true)
    (hS : lookupA "SHR" cs = some (.fn shr))
    (heF : lookupA "freq" t.entries = some freqEntries)
    (hfe : freqEntries ≠ [])
    (heA : lookupA "AFR" t.entries = some afrEntries)
    (hae : afrEntries ≠ [])
    (hmv : t.manvalFactors = some mv)
    (hmvF : lookupA "freq" mv = some mvF)
    (hmvA : lookupA "AFR" mv = some mvA)
    (hmvT : lookupA "Twbr" mv = some mvT)
    (hnorm : norm = none ∨ ∃ rv, norm = some rv ∧
      rv.cols = ["capacity", "power"] ∧ rv.rows.length = 1) :
    ∃ out, fillmapT t norm = .ok out ∧
      out.cols = ["power", "sensible_capacity", "latent_capacity"] ∧
      out.names = ["Tdbr", "Twbr", "Tdbo", "AFR", "freq"] ∧
      ∀ r ∈ out.rows, ∃ cap : ℚ,
        r.2.getD 1 0 = cap * shr (r.1.getD 0 0 - r.1.getD 1 0) ∧
        r.2.getD 2 0 = cap - r.2.getD 1 0 := by
  have hck : checkMode t "filling the performance map" = .ok () :=
    checkMode_ok t "cooling" hmode "filling the performance map"
  have hguard : (norm.isSome && t.normalized) = false := by
    rw [hnz, Bool.and_false]
  have hgF : getCorrection t "freq" = .ok (.curves F) :=
    getCorrection_ok t "cooling" cs "freq" _ hmode hcorr hF
  have hgA : getCorrection t "AFR" = .ok (.curves A) :=
    getCorrection_ok t "cooling" cs "AFR" _ hmode hcorr hA
  have hgW : getCorrection t "Twbr" = .ok (.curves W) :=
    getCorrection_ok t "cooling" cs "Twbr" _ hmode hcorr hW
  have hgS : getCorrection t "SHR" = .ok (.fn shr) :=
    getCorrection_ok t "cooling" cs "SHR" _ hmode hcorr hS
  have hadd := addMissingDFCol_COP t.df (by rw [hcols]; decide)
    (by rw [hcols]; decide) (by rw [hcols]; decide)
  have hc1 : (appendCol t.df "COP" (fun _ v =>
      cellVal t.df.cols v "capacity" / cellVal t.df.cols v "power")).cols =
      ["capacity", "power", "COP"] := by
    show t.df.cols ++ ["COP"] = _
    rw [hcols]
    rfl
  have hwf1 : ∀ r ∈ (appendCol t.df "COP" (fun _ v =>
      cellVal t.df.cols v "capacity" / cellVal t.df.cols v "power")).rows,
      r.2.length = 3 :=
    appendCol_wf t.df "COP" _ 2 hwf
  have hdf1ne : (appendCol t.df "COP" (fun _ v =>
      cellVal t.df.cols v "capacity" / cellVal t.df.cols v "power")).rows ≠
      [] :=
    fun hcon => hrows (List.map_eq_nil_iff.mp hcon)
  obtain ⟨wF, hext1, hwFn, hwFc, hwFwf, hwFne⟩ := extendDF_shape
    (appendCol t.df "COP" (fun _ v =>
      cellVal t.df.cols v "capacity" / cellVal t.df.cols v "power"))
    F freqEntries "freq" mv mvF (by rw [hc1]; exact hFk) hmvF hfe
  have hwFc2 : wF.cols = ["capacity", "power", "COP"] := hwFc.trans hc1
  have hwFn2 : wF.names = ["freq", "Tdbr", "Twbr", "Tdbo"] := by
    rw [hwFn]
    show "freq" :: t.df.names = _
    rw [hnames]
  have hwFne2 : wF.rows ≠ [] := hwFne hdf1ne
  obtain ⟨wA, hext2, hwAn, hwAc, hwAwf, hwAne⟩ := extendDF_shape
    wF A afrEntries "AFR" mv mvA (by rw [hwFc2]; exact hAk) hmvA hae
  have hwAc2 : wA.cols = ["capacity", "power", "COP"] := hwAc.trans hwFc2
  have hwAn2 : wA.names = ["AFR", "freq", "Tdbr", "Twbr", "Tdbo"] := by
    rw [hwAn, hwFn2]
  have hwAwf3 : ∀ r ∈ wA.rows, r.2.length = 3 :=
    hwAwf 3 (hwFwf 3 hwf1)
  have hdlN : (dropLevel wA "Twbr").names = ["AFR", "freq", "Tdbr", "Tdbo"] := by
    show wA.names.eraseIdx (wA.names.indexOf "Twbr") = _
    rw [hwAn2]
    rfl
  have hdlC : (dropLevel wA "Twbr").cols = ["capacity", "power", "COP"] :=
    hwAc2
  have hdlWF : ∀ r ∈ (dropLevel wA "Twbr").rows, r.2.length = 3 :=
    dropLevel_wf wA "Twbr" 3 hwAwf3
  have hwAne2 : wA.rows ≠ [] := hwAne hwFne2
  have htwne : uniqueList (levelValues wA "Twbr") ≠ [] :=
    uniqueList_ne_nil _ (levelValues_ne_nil wA "Twbr" hwAne2)
  obtain ⟨wT, hext3, hwTn, hwTc, hwTwf, _⟩ := extendDF_shape
    (dropLevel wA "Twbr") W (uniqueList (levelValues wA "Twbr")) "Twbr"
    mv mvT (by rw [hdlC]; exact hWk) hmvT htwne
  have hwTn2 : wT.names = ["Twbr", "AFR", "freq", "Tdbr", "Tdbo"] := by
    rw [hwTn, hdlN]
  have hwTc2 : wT.cols = ["capacity", "power", "COP"] := hwTc.trans hdlC
  have hwTwf3 : ∀ r ∈ wT.rows, r.2.length = 3 := hwTwf 3 hdlWF
  obtain ⟨t6, G, hn6, hn6n, hn6c, hn6r, hGp⟩ :=
    normalizeT_stage6 t wT norm hmode hnz hwTc2 hnorm
  have h6n : t6.df.names = ["Twbr", "AFR", "freq", "Tdbr", "Tdbo"] :=
    hn6n.trans hwTn2
  have h6c : t6.df.cols = ["capacity", "power", "COP"] := hn6c.trans hwTc2
  have h6wf : ∀ r ∈ t6.df.rows, r.2.length = 3 := by
    rw [hn6r]
    intro r hr
    obtain ⟨r0, hr0, rfl⟩ := List.mem_map.mp hr
    rw [(hGp r0).2]
    exact hwTwf3 r0 hr0
  obtain ⟨hocols, honames, hpt⟩ := coolingSplit_spec t6.df shr h6n h6c h6wf
  refine ⟨_, ?_, hocols, honames, hpt⟩
  unfold fillmapT
  simp only [hck]
  rw [if_neg (show ¬((norm.isSome && t.normalized) = true) from by
    rw [hguard]; decide)]
  simp only [hgF, hadd, heF, hmv, hext1, hgA, heA, hext2]
  rw [hmode]
  rw [if_neg (show ¬((some "cooling" : Option String) = some "heating") from
    by decide)]
  rw [if_pos (rfl : (some "cooling" : Option String) = some "cooling")]
  rw [hmv] at hn6
  simp only [fillmapCoolingTail, hgW, hmv, hext3, hn6, hgS]

/-- The constant-one curve used by the C2 witness. -/
def exCurveOneC2 : Curve := fun _ => 1

/-- A complete capacity/power/COP curve triple for the C2 witness. -/
def exTripleC2 : List (String × Curve) :=
  [("capacity", exCurveOneC2), ("power", exCurveOneC2),
   ("COP", exCurveOneC2)]

/-- Corrections for `freq`, `AFR`, `Twbr` (curve dicts) and `SHR` (bare
callable), as the cooling branch of `fillmap` requires. -/
def exCorrsC2 : Corrections :=
  [("freq", CorrVal.curves exTripleC2), ("AFR", CorrVal.curves exTripleC2),
   ("Twbr", CorrVal.curves exTripleC2), ("SHR", CorrVal.fn exCurveOneC2)]

/-- A one-row cooling-mode table in the canonical rated layout with
nonempty entries and manual-value factors configured. -/
def exTableC2 : Table :=
  { df := { names := ["Tdbr", "Twbr", "Tdbo"], colsName := some "cooling",
            cols := ["capacity", "power"], rows := [([1, 2, 3], [4, 5])] },
    mode := some "cooling", normalized := false,
    entries := [("freq", [0]), ("AFR", [0])],
    corrections := some exCorrsC2,
    manvalFactors := some [("freq", 0), ("AFR", 0), ("Twbr", 0)] }

/-- Witness for C2: the concrete cooling table satisfies every hypothesis
of the claim and `fillmap` returns the three-column split frame. -/
theorem C2_witness :
    ∃ out, fillmapT exTableC2 none = .ok out ∧
      out.cols = ["power", "sensible_capacity", "latent_capacity"] ∧
      out.names = ["Tdbr", "Twbr", "Tdbo", "AFR", "freq"] ∧
      ∀ r ∈ out.rows, ∃ cap : ℚ,
        r.2.getD 1 0 = cap * exCurveOneC2 (r.1.getD 0 0 - r.1.getD 1 0) ∧
        r.2.getD 2 0 = cap - r.2.getD 1 0 :=
  C2_fillmap_cooling exTableC2 none exCorrsC2 exTripleC2 exTripleC2
    exTripleC2 exCurveOneC2 [0] [0] [("freq", 0), ("AFR", 0), ("Twbr", 0)]
    0 0 0 rfl rfl rfl rfl (by decide) (by decide) rfl rfl rfl rfl rfl rfl
    rfl rfl rfl (by decide) rfl (by decide) rfl rfl rfl rfl (Or.inl rfl)

/-! ## Claim C10 -/

/-- Repeated application of `normalize` with no rated-values argument. -/
def iterNormalizeNone (t : Table) : Nat → Except PyErr Table
  | 0 => .ok t
  | n + 1 =>
    match normalizeT t none with
    | .error e => .error e
    | .ok t2 => iterNormalizeNone t2 n

/-- C10: on a table with mode set and the normalized flag false,
`normalize()` with no rated values returns the unchanged copy with the
flag still false, and consequently any number of repeated no-argument
`normalize` calls succeed without ever raising the double-normalization
`RuntimeError`. -/
theorem C10_normalize_none_keeps_flag (t : Table) (m : String)
    (hm : t.mode = some m) (hn : t.normalized = false) :
    normalizeT t none = .ok t ∧ t.normalized = false ∧
      ∀ n, iterNormalizeNone t n = .ok t := by
  have h1 : normalizeT t none = .ok t := by
    unfold normalizeT checkMode
    rw [hn, hm]
    rfl
  refine ⟨h1, hn, fun n => ?_⟩
  induction n with
  | zero => rfl
  | succ k ih =>
    unfold iterNormalizeNone
    rw [h1]
    exact ih

/-- Witness for C10 at the concrete table `exTableC7`. -/
theorem C10_witness :
    normalizeT exTableC7 none = .ok exTableC7 ∧
      exTableC7.normalized = false ∧
      ∀ n, iterNormalizeNone exTableC7 n = .ok exTableC7 :=
  C10_normalize_none_keeps_flag exTableC7 "cooling" rfl rfl

end Permap
